import Mathlib

/-!
# Verification of the `call` package (dynamic method invocation over reflection)

This file is a shallow embedding of the core of the repository:

* `Func` / `StatFunc` / `newFunc` — signature descriptors built by introspection;
* `Func.Args` / `Func.Call` / `Func.PruneIn` — argument synthesis, invocation,
  and pruning;
* `Method` / `Instance` / `Instance.Copy` / `Instance.Rebind` — method
  descriptors bound to a shared receiver;
* `typeInfoCache.StatType` / `typeInfoCache.Stat` — the type-introspection
  cache's build path.

Go-specific machinery is made explicit:

* Go slices of `Arg` are modelled as `ArgSlice` headers (array id, offset,
  length) over a store of backing arrays held in `World`, because `PruneIn`
  deletes elements in place with `append(slice[:k], slice[k+1:]...)` and
  `Instance.Copy` copies `Func` structs shallowly, so slice headers of
  distinct `Func` values can alias one backing array.
* `reflect.New` allocations are modelled with an address counter and a heap
  of allocated cells so that "Pointers[K] is an address of a freshly created
  zero value" is expressible.
* The `sync.Pool` of argument buffers is a list of buffers in `World`;
  `Get` takes the head or makes a fresh zeroed buffer (`argPoolAlloc = 5`),
  `Put` pushes.  Buffer capacity is modelled as the buffer's length: every
  buffer the code ever puts into the pool is fully cleared first, so
  `Reset`'s reallocate-vs-reuse distinction is not observable in values.
* A panicking callable is modelled by the callable returning `none`.
-/

/-- Go `reflect.Kind`, restricted to the kinds the package distinguishes:
`reflect.Interface` against everything else. -/
inductive Kind where
  | kBool
  | kInt
  | kString
  | kStruct
  | kInterface
  | kPtr
  | kMap
  | kFunc
deriving DecidableEq, Repr

/-- A Go `reflect.Type`: identified by name, carrying its kind.  Two types are
identical exactly when name and kind agree (type identity). -/
structure Ty where
  name : String
  kind : Kind
deriving DecidableEq, Repr

/-- A Go runtime value as seen through `reflect.Value` / `interface{}`:

* `invalid` is the zero `reflect.Value` (the package's `zeroReflectValue`);
* `zeroOf t` is the zero value of a struct / interface / pointer / map type
  `t`; for an interface type it is the nil interface value;
* `errVal` is a non-nil value whose dynamic type implements `error`, so the
  type assertion `iface.(error)` succeeds on it and on nothing else. -/
inductive Val where
  | invalid
  | int (n : Int)
  | str (s : String)
  | bool (b : Bool)
  | zeroOf (t : Ty)
  | errVal (msg : String)
deriving DecidableEq, Repr

/-- The type assertion `iface.(error)`: succeeds exactly on non-nil values
implementing `error`.  A nil interface value never satisfies it. -/
def Val.isError : Val → Bool
  | .errVal _ => true
  | _ => false

/-- `reflect.Zero(T)` / `reflect.Indirect(reflect.New(T))`: the zero value of
a type. -/
def Ty.zero (t : Ty) : Val :=
  match t.kind with
  | .kInt => .int 0
  | .kString => .str ""
  | .kBool => .bool false
  | _ => .zeroOf t

/-- `Arg` describes a function or method argument by its type `T`, its index
`N`, and if it can be known in advance its value `V` (zero `reflect.Value`
otherwise). -/
structure Arg where
  N : Nat
  T : Ty
  V : Val
deriving DecidableEq, Repr

instance : Inhabited Arg := ⟨⟨0, ⟨"", .kStruct⟩, .invalid⟩⟩

/-- `Args` contains arguments as a pair of slices: `Values` are the
`reflect.Value` arguments, `Pointers` are addressable handles
(`nil` where a value has no pointer, modelled as `none`). -/
structure Args where
  values : List Val
  pointers : List (Option Nat)
deriving DecidableEq, Repr

/-- The argument-container type under a second name, for signatures in which
the plain name `Args` would resolve to an `Args` method instead. -/
abbrev ArgsBuf := Args

/-- `Result` of invoking a function or method: `Error` is the last returned
error (if any), `Values` holds all returned values. -/
structure Result where
  error : Option Val
  values : List Val
deriving DecidableEq, Repr

/-- A Go slice header over a store of `Arg` backing arrays: array id, offset,
length.  Capacity beyond `off + len` is unbounded in the model; the in-place
`append` delete used by `PruneIn` never needs more than the original length. -/
structure ArgSlice where
  arr : Nat
  off : Nat
  len : Nat
deriving DecidableEq, Repr

/-- `Func` represents a single function call: the callable itself (its
behaviour on an argument list, `none` modelling a panic during the call),
argument and return shapes, and the `InCreate` / `InCache` partition used by
`Args()`. -/
structure Func where
  fn : List Val → Option (List Val)
  NumIn : Nat
  InKinds : List Kind
  InTypes : List Ty
  InCreate : ArgSlice
  InCache : ArgSlice
  NumOut : Nat
  OutTypes : List Ty

instance : Inhabited Func :=
  ⟨⟨fun _ => none, 0, [], [], ⟨0, 0, 0⟩, ⟨0, 0, 0⟩, 0, []⟩⟩

/-- A Go `interface{}` value that is not nil: its runtime type plus the value. -/
structure Boxed where
  ty : Ty
  v : Val
deriving DecidableEq, Repr

/-- `Method` contains information about a single method on a Go type: its
name, its `Func`, and the `instance` pointer (a reference into the world's
instance heap) tying it to its receiver. -/
structure Method where
  Name : String
  func : Func
  instRef : Nat

instance : Inhabited Method := ⟨⟨"", default, 0⟩⟩

/-- `Instance` summarizes a type and its methods, all bound to the same
receiver.  `receiver` is the `interface{}` receiver, `receiverType` its
captured `reflect.Type`, `receiverValue` its `reflect.Value`. -/
structure Instance where
  Methods : List Method
  receiver : Boxed
  receiverType : Ty
  receiverValue : Val

instance : Inhabited Instance :=
  ⟨⟨[], ⟨⟨"", .kStruct⟩, .invalid⟩, ⟨"", .kStruct⟩, .invalid⟩⟩

/-- A Go function value as the reflection facility reports it: parameter
types, return types, and its behaviour (`none` = the call panics). -/
structure GoFunc where
  ins : List Ty
  outs : List Ty
  impl : List Val → Option (List Val)

/-- One entry of `T.Method(k)`: name plus the method's `Func`, whose first
parameter is the receiver. -/
structure GoMethod where
  name : String
  fn : GoFunc

/-- A Go type together with its exported methods, as enumerated by the
reflection capability during `StatType`. -/
structure GoType where
  ty : Ty
  methods : List GoMethod

/-- The mutable state the package operates in: the store of `Arg` backing
arrays, the heap of `Instance` structs, the `sync.Pool` of argument buffers,
and the `reflect.New` allocator (counter plus allocated cells). -/
structure World where
  arrays : Nat → Nat → Arg
  narrays : Nat
  instances : List Instance
  pool : List Args
  nextAddr : Nat
  heap : Nat → Option Val

/-- Allocate a fresh backing array holding the given elements and return a
slice header covering it. -/
def World.allocArray (w : World) (l : List Arg) : ArgSlice × World :=
  (⟨w.narrays, 0, l.length⟩,
   { w with
      arrays := fun i => if i = w.narrays then (fun j => l.getD j default) else w.arrays i
      narrays := w.narrays + 1 })

/-- The elements a slice header currently denotes. -/
def World.readSlice (w : World) (sl : ArgSlice) : List Arg :=
  (List.range sl.len).map fun i => w.arrays sl.arr (sl.off + i)

/-- `slice = append(slice[:k], slice[k+1:]...)`: the in-place element delete
`PruneIn` performs.  Elements at positions `k+1 .. len-1` of the slice are
copied one slot left inside the shared backing array; the returned header is
one shorter.  Other views of the same array observe the shift. -/
def World.deleteAt (w : World) (sl : ArgSlice) (k : Nat) : World × ArgSlice :=
  ({ w with
      arrays := fun i =>
        if i = sl.arr then
          (fun j =>
            if sl.off + k ≤ j ∧ j + 1 < sl.off + sl.len then w.arrays sl.arr (j + 1)
            else w.arrays sl.arr j)
        else w.arrays i },
   ⟨sl.arr, sl.off, sl.len - 1⟩)

/-- `argPoolAlloc`: allocation size of fresh `*Args` from the pool. -/
def argPoolAlloc : Nat := 5

/-- `argPool.Get()`: take a pooled buffer, or have the pool's `New` build a
fresh zeroed one of size `argPoolAlloc`. -/
def poolGet (pool : List Args) : Args × List Args :=
  match pool with
  | [] => (⟨List.replicate argPoolAlloc .invalid, List.replicate argPoolAlloc none⟩, [])
  | b :: rest => (b, rest)

/-- `Args.Reset(N)`: ensure capacity for `N` elements, reallocating when the
current buffer is too small.  (Capacity is modelled as length; pooled buffers
are always fully cleared, so a kept buffer and a reallocated one hold the
same slot values.) -/
def Args.Reset (a : Args) (n : Nat) : Args :=
  if a.values.length < n then ⟨List.replicate n .invalid, List.replicate n none⟩ else a

/-- `rv.Values[:NumIn]`, `rv.Pointers[:NumIn]`: reslice the buffer to the
argument count. -/
def Args.reslice (a : Args) (n : Nat) : Args :=
  ⟨a.values.take n, a.pointers.take n⟩

/-- The classification loop of `newFunc` / `StatType`, cache half: interface
arguments, each with its cached nil value `reflect.Indirect(reflect.New(in))`.
`k` is the index of the first listed parameter. -/
def classifyCache : Nat → List Ty → List Arg
  | _, [] => []
  | k, t :: rest =>
      (if t.kind = .kInterface then [⟨k, t, t.zero⟩] else []) ++ classifyCache (k + 1) rest

/-- The classification loop of `newFunc` / `StatType`, create half:
non-interface arguments, to be freshly created on each `Args()` call. -/
def classifyCreate : Nat → List Ty → List Arg
  | _, [] => []
  | k, t :: rest =>
      (if t.kind = .kInterface then [] else [⟨k, t, .invalid⟩]) ++ classifyCreate (k + 1) rest

/-- `newFunc` builds a `Func` from a function value: classify every parameter
into `InCache` (interface kinds) or `InCreate` (everything else) and record
the shapes.  The two slices get fresh backing arrays.  (The model takes an
actual function value, so the `T.Kind() != reflect.Func` panic cannot fire.) -/
def newFunc (F : GoFunc) (w : World) : Func × World :=
  let c1 := w.allocArray (classifyCache 0 F.ins)
  let c2 := c1.2.allocArray (classifyCreate 0 F.ins)
  ({ fn := F.impl
     NumIn := F.ins.length
     InKinds := F.ins.map Ty.kind
     InTypes := F.ins
     InCreate := c2.1
     InCache := c1.1
     NumOut := F.outs.length
     OutTypes := F.outs }, c2.2)

/-- `StatFunc` accepts an arbitrary function and returns an associated `Func`. -/
def StatFunc (F : GoFunc) (w : World) : Func × World := newFunc F w

/-- The `InCreate` fill loop of `Args()`: for each entry, `reflect.New(arg.T)`
allocates a cell holding the zero value; `Values[arg.N]` becomes that value
and `Pointers[arg.N]` its address. -/
def fillCreate : List Arg → Args → Nat → (Nat → Option Val) →
    Args × Nat × (Nat → Option Val)
  | [], a, next, heap => (a, next, heap)
  | arg :: rest, a, next, heap =>
      fillCreate rest
        ⟨a.values.set arg.N arg.T.zero, a.pointers.set arg.N (some next)⟩
        (next + 1)
        (fun ad => if ad = next then some arg.T.zero else heap ad)

/-- The `InCache` fill loop of `Args()`: `Values[arg.N]` becomes the cached
value `arg.V` and `Pointers[arg.N]` is set to nil. -/
def fillCache : List Arg → Args → Args
  | [], a => a
  | arg :: rest, a =>
      fillCache rest ⟨a.values.set arg.N arg.V, a.pointers.set arg.N none⟩

/-- `Func.Args()`: check a buffer out of the pool, `Reset` and reslice it to
`NumIn`, then run the `InCreate` and `InCache` fill loops. -/
def Func.Args (f : Func) (w : World) : Args × World :=
  let buf := ((poolGet w.pool).1.Reset f.NumIn).reslice f.NumIn
  let fc := fillCreate (w.readSlice f.InCreate) buf w.nextAddr w.heap
  (fillCache (w.readSlice f.InCache) fc.1,
   { w with pool := (poolGet w.pool).2, nextAddr := fc.2.1, heap := fc.2.2 })

/-- The return-classification loop of `Call`: `result.Error` is overwritten
by each returned value satisfying `iface.(error)`, so it ends as the last
such value. -/
def classifyReturns (rets : List Val) : Option Val :=
  rets.foldl (fun acc v => if v.isError then some v else acc) none

/-- `Func.Call(args)`: invoke the callable on `args.Values`; box every return
value into `Result.Values` in order and set `Result.Error` to the last one
satisfying the error assertion.  The deferred block — which runs on the
normal path and when the callable panics — clears every slot of the buffer
and returns it to the pool.  A panic is propagated as `none`. -/
def Func.Call (f : Func) (args : ArgsBuf) (w : World) : Option Result × World :=
  let cleared : ArgsBuf :=
    ⟨args.values.map fun _ => .invalid, args.pointers.map fun _ => none⟩
  let w' := { w with pool := cleared :: w.pool }
  match f.fn args.values with
  | none => (none, w')
  | some rets => (some ⟨classifyReturns rets, rets⟩, w')

/-- The inner removal loop of `PruneIn` for one type `T`: scan the slice from
index `k`; on a match, record the entry and delete it in place (the loop does
not advance); otherwise advance.  `fuel` bounds the iteration count (the Go
loop runs while `k < len(slice)`, at most `len` times). -/
def pruneScan (w : World) (sl : ArgSlice) (T : Ty) (k : Nat) (rv : List Arg) :
    Nat → World × ArgSlice × List Arg
  | 0 => (w, sl, rv)
  | fuel + 1 =>
      if k < sl.len then
        -- arg := slice[k]
        if (w.arrays sl.arr (sl.off + k)).T = T then
          pruneScan (w.deleteAt sl k).1 (w.deleteAt sl k).2 T k
            (rv ++ [w.arrays sl.arr (sl.off + k)]) fuel
        else
          pruneScan w sl T (k + 1) rv fuel
      else (w, sl, rv)

/-- The `prune` closure of `PruneIn`: remove every occurrence of every
requested type from one slice, appending removed entries to `rv`. -/
def pruneSlice (w : World) (sl : ArgSlice) (types : List Ty) (rv : List Arg) :
    World × ArgSlice × List Arg :=
  match types with
  | [] => (w, sl, rv)
  | T :: rest =>
      let p := pruneScan w sl T 0 rv sl.len
      pruneSlice p.1 p.2.1 rest p.2.2

/-- `Func.PruneIn(types...)`: prune `InCache`, then `InCreate`, returning the
removed entries. -/
def Func.PruneIn (f : Func) (types : List Ty) (w : World) :
    Func × World × List Arg :=
  let p1 := pruneSlice w f.InCache types []
  let p2 := pruneSlice p1.1 f.InCreate types p1.2.2
  ({ f with InCache := p1.2.1, InCreate := p2.2.1 }, p2.1, p2.2.2)

/-- `InCreate[1:]`: `StatType` strips the receiver entry from a method's
create list by reslicing past it. -/
def ArgSlice.dropFirst (sl : ArgSlice) : ArgSlice :=
  ⟨sl.arr, sl.off + 1, sl.len - 1⟩

/-- The method-building loop of `StatType`: each method gets `newFunc` of its
`reflect.Method.Func` and then has the receiver entry stripped from
`InCreate`; every method points at the instance being built (`ref`). -/
def buildMethods (ref : Nat) : List GoMethod → World → List Method × World
  | [], w => ([], w)
  | gm :: rest, w =>
      let nf := newFunc gm.fn w
      let f1 := { nf.1 with InCreate := nf.1.InCreate.dropFirst }
      let bm := buildMethods ref rest nf.2
      (⟨gm.name, f1, ref⟩ :: bm.1, bm.2)

/-- `typeInfoCache.StatType(T)` (build path): create an `Instance` whose
receiver is the zero value of `T` and whose methods are built from `T`'s
method set.  The instance is stored on the instance heap and its reference
returned; a cache hit (`me.cache.Load`) hands out this same stored template,
which the model expresses by reusing the returned reference. -/
def statType (gt : GoType) (w : World) : Nat × World :=
  let ref := w.instances.length
  let bm := buildMethods ref gt.methods w
  (ref,
   { bm.2 with
      instances :=
        bm.2.instances ++
          [{ Methods := bm.1
             receiver := ⟨gt.ty, gt.ty.zero⟩
             receiverType := gt.ty
             receiverValue := gt.ty.zero }] })

/-- `Instance.Copy()`: a new `Instance` with the same receiver binding and a
copied method list; each copied method points at the copy and carries a fresh
`Func` struct obtained by the shallow copy `*fnew = *f`, so its
`InCreate` / `InCache` slice headers still alias the original backing
arrays. -/
def instanceCopy (r : Nat) (w : World) : Nat × World :=
  let inst := w.instances.getD r default
  let ref := w.instances.length
  let ms := inst.Methods.map fun m => { m with instRef := ref }
  (ref, { w with instances := w.instances ++ [{ inst with Methods := ms }] })

/-- `Instance.Rebind(in)`: if `in`'s runtime type differs from the captured
receiver type, panic (flag `true`) without assigning anything; otherwise set
`receiver` and `receiverValue` to the new value. -/
def instanceRebind (r : Nat) (b : Boxed) (w : World) : World × Bool :=
  let inst := w.instances.getD r default
  if b.ty = inst.receiverType then
    ({ w with
        instances :=
          w.instances.set r { inst with receiver := b, receiverValue := b.v } },
     false)
  else (w, true)

/-- `Method.Args()`: call down to `Func.Args()`, then overwrite index 0 of
`Values` with the receiver's current `reflect.Value` and null its pointer. -/
def Method.Args (m : Method) (w : World) : ArgsBuf × World :=
  let fa := m.func.Args w
  let inst := fa.2.instances.getD m.instRef default
  (⟨fa.1.values.set 0 inst.receiverValue, fa.1.pointers.set 0 none⟩, fa.2)

/-- `typeInfoCache.Stat(V)`: nil in, nil out; otherwise stat `V`'s type,
`Copy()` the template, and `Rebind` the copy to `V`.  `mt` is the reflection
capability giving each type its method set.  (The `Rebind` cannot panic: the
template's captured type is `reflect.TypeOf(V)` itself.) -/
def typeInfoCacheStat (mt : Ty → List GoMethod) (V : Option Boxed) (w : World) :
    Option Nat × World :=
  match V with
  | none => (none, w)
  | some b =>
      let st := statType ⟨b.ty, mt b.ty⟩ w
      let cp := instanceCopy st.1 st.2
      (some cp.1, (instanceRebind cp.1 b cp.2).1)

/-- A world whose stores are all empty: the state at process start. -/
def World.empty : World :=
  ⟨fun _ _ => default, 0, [], [], 0, fun _ => none⟩

/-! ## Store and slice lemmas -/

theorem World.readSlice_length (w : World) (sl : ArgSlice) :
    (w.readSlice sl).length = sl.len := by
  simp [World.readSlice]

theorem World.readSlice_getElem? (w : World) (sl : ArgSlice) (i : Nat) :
    (w.readSlice sl)[i]? =
      if i < sl.len then some (w.arrays sl.arr (sl.off + i)) else none := by
  unfold World.readSlice
  rcases Nat.lt_or_ge i sl.len with h | h
  · rw [List.getElem?_map, List.getElem?_eq_getElem (by simpa using h)]
    simp [h]
  · rw [List.getElem?_eq_none (by simpa using h)]
    simp [Nat.not_lt_of_ge h]

theorem World.readSlice_allocArray_self (w : World) (l : List Arg) :
    (w.allocArray l).2.readSlice (w.allocArray l).1 = l := by
  apply List.ext_getElem?
  intro i
  rw [World.readSlice_getElem?]
  show (if i < l.length then
      some ((w.allocArray l).2.arrays (w.allocArray l).1.arr (0 + i)) else none) = l[i]?
  rcases Nat.lt_or_ge i l.length with h | h
  · have harr : (w.allocArray l).2.arrays (w.allocArray l).1.arr (0 + i) = l[i] := by
      simp [World.allocArray, List.getD_eq_getElem?_getD, List.getElem?_eq_getElem h]
    rw [if_pos h, harr, List.getElem?_eq_getElem h]
  · rw [if_neg (Nat.not_lt_of_ge h), List.getElem?_eq_none h]

/-- `w'` extends `w`: it has at least the arrays of `w`, unchanged. -/
def World.Ext (w w' : World) : Prop :=
  w.narrays ≤ w'.narrays ∧ ∀ i, i < w.narrays → w'.arrays i = w.arrays i

theorem World.Ext.refl (w : World) : World.Ext w w :=
  ⟨Nat.le_refl _, fun _ _ => rfl⟩

theorem World.Ext.trans {w1 w2 w3 : World} (h12 : World.Ext w1 w2)
    (h23 : World.Ext w2 w3) : World.Ext w1 w3 :=
  ⟨Nat.le_trans h12.1 h23.1,
   fun i hi => (h23.2 i (Nat.lt_of_lt_of_le hi h12.1)).trans (h12.2 i hi)⟩

theorem World.ext_allocArray (w : World) (l : List Arg) :
    World.Ext w (w.allocArray l).2 := by
  refine ⟨Nat.le_succ _, fun i hi => ?_⟩
  simp only [World.allocArray]
  rw [if_neg (Nat.ne_of_lt hi)]

theorem World.readSlice_ext {w w' : World} (h : World.Ext w w') {sl : ArgSlice}
    (hsl : sl.arr < w.narrays) : w'.readSlice sl = w.readSlice sl := by
  unfold World.readSlice
  exact List.map_congr_left fun i _ => by rw [h.2 sl.arr hsl]

theorem World.allocArray_arr_lt (w : World) (l : List Arg) :
    (w.allocArray l).1.arr < (w.allocArray l).2.narrays := by
  simp [World.allocArray]

theorem World.allocArray_fields (w : World) (l : List Arg) :
    (w.allocArray l).2.instances = w.instances ∧ (w.allocArray l).2.pool = w.pool ∧
      (w.allocArray l).2.nextAddr = w.nextAddr ∧ (w.allocArray l).2.heap = w.heap :=
  ⟨rfl, rfl, rfl, rfl⟩

theorem World.deleteAt_fields (w : World) (sl : ArgSlice) (k : Nat) :
    (w.deleteAt sl k).1.instances = w.instances ∧ (w.deleteAt sl k).1.pool = w.pool ∧
      (w.deleteAt sl k).1.nextAddr = w.nextAddr ∧ (w.deleteAt sl k).1.heap = w.heap ∧
      (w.deleteAt sl k).1.narrays = w.narrays ∧
      ∀ i, i ≠ sl.arr → (w.deleteAt sl k).1.arrays i = w.arrays i := by
  refine ⟨rfl, rfl, rfl, rfl, rfl, fun i hi => ?_⟩
  simp only [World.deleteAt]
  rw [if_neg hi]

theorem World.deleteAt_slice (w : World) (sl : ArgSlice) (k : Nat) :
    (w.deleteAt sl k).2 = ⟨sl.arr, sl.off, sl.len - 1⟩ := rfl

theorem World.deleteAt_arrays_self (w : World) (sl : ArgSlice) (k : Nat) :
    (w.deleteAt sl k).1.arrays sl.arr = fun j =>
      if sl.off + k ≤ j ∧ j + 1 < sl.off + sl.len then w.arrays sl.arr (j + 1)
      else w.arrays sl.arr j := by
  simp [World.deleteAt]

theorem World.readSlice_deleteAt (w : World) (sl : ArgSlice) (k : Nat)
    (hk : k < sl.len) :
    (w.deleteAt sl k).1.readSlice (w.deleteAt sl k).2 =
      (w.readSlice sl).take k ++ (w.readSlice sl).drop (k + 1) := by
  have hlen : (w.readSlice sl).length = sl.len := w.readSlice_length sl
  apply List.ext_getElem?
  intro i
  rw [World.deleteAt_slice, World.readSlice_getElem?]
  show (if i < sl.len - 1 then
      some ((w.deleteAt sl k).1.arrays sl.arr (sl.off + i)) else none) = _
  simp only [World.deleteAt_arrays_self]
  rcases Nat.lt_or_ge i (sl.len - 1) with h | h
  · rw [if_pos h]
    rcases Nat.lt_or_ge i k with hik | hik
    · rw [if_neg (by omega)]
      have hti : i < ((w.readSlice sl).take k).length := by
        rw [List.length_take, hlen]; omega
      rw [List.getElem?_append_left hti, List.getElem?_take, if_pos hik,
        World.readSlice_getElem?, if_pos (by omega)]
    · rw [if_pos (by omega)]
      have hklen : ((w.readSlice sl).take k).length = k := by
        rw [List.length_take, hlen]; omega
      rw [List.getElem?_append_right (by rw [hklen]; omega), hklen,
        List.getElem?_drop, World.readSlice_getElem?, if_pos (by omega)]
      congr 2
      omega
  · rw [if_neg (by omega)]
    refine (List.getElem?_eq_none ?_).symm
    rw [List.length_append, List.length_take, List.length_drop, hlen]
    omega

/-! ## Prune-loop lemmas -/

/-- `w'` agrees with `w` on everything except (possibly) the backing array `a`. -/
def World.SameExceptArray (w w' : World) (a : Nat) : Prop :=
  w'.instances = w.instances ∧ w'.pool = w.pool ∧ w'.nextAddr = w.nextAddr ∧
    w'.heap = w.heap ∧ w'.narrays = w.narrays ∧
    ∀ i, i ≠ a → w'.arrays i = w.arrays i

theorem World.sameExceptArray_refl (w : World) (a : Nat) :
    World.SameExceptArray w w a :=
  ⟨rfl, rfl, rfl, rfl, rfl, fun _ _ => rfl⟩

theorem World.sameExceptArray_trans {w1 w2 w3 : World} {a : Nat}
    (h12 : World.SameExceptArray w1 w2 a) (h23 : World.SameExceptArray w2 w3 a) :
    World.SameExceptArray w1 w3 a :=
  ⟨h23.1.trans h12.1, h23.2.1.trans h12.2.1, h23.2.2.1.trans h12.2.2.1,
   h23.2.2.2.1.trans h12.2.2.2.1, h23.2.2.2.2.1.trans h12.2.2.2.2.1,
   fun i hi => (h23.2.2.2.2.2 i hi).trans (h12.2.2.2.2.2 i hi)⟩

theorem World.deleteAt_sameExceptArray (w : World) (sl : ArgSlice) (k : Nat) :
    World.SameExceptArray w (w.deleteAt sl k).1 sl.arr :=
  ⟨rfl, rfl, rfl, rfl, rfl, (w.deleteAt_fields sl k).2.2.2.2.2⟩

theorem pruneScan_spec (T : Ty) (fuel : Nat) :
    ∀ (w : World) (sl : ArgSlice) (k : Nat) (rv : List Arg),
      sl.len - k ≤ fuel →
      (pruneScan w sl T k rv fuel).2.2 =
          rv ++ ((w.readSlice sl).drop k).filter (fun a => decide (a.T = T)) ∧
        (pruneScan w sl T k rv fuel).1.readSlice (pruneScan w sl T k rv fuel).2.1 =
          (w.readSlice sl).take k ++
            ((w.readSlice sl).drop k).filter (fun a => !decide (a.T = T)) ∧
        (pruneScan w sl T k rv fuel).2.1.arr = sl.arr ∧
        (pruneScan w sl T k rv fuel).2.1.off = sl.off ∧
        World.SameExceptArray w (pruneScan w sl T k rv fuel).1 sl.arr := by
  induction fuel with
  | zero =>
      intro w sl k rv hf
      have hd : (w.readSlice sl).drop k = [] :=
        List.drop_eq_nil_of_le (by rw [w.readSlice_length]; omega)
      have ht : (w.readSlice sl).take k = w.readSlice sl :=
        List.take_of_length_le (by rw [w.readSlice_length]; omega)
      refine ⟨?_, ?_, ?_, ?_, ?_⟩
      · simp [pruneScan, hd]
      · simp [pruneScan, hd, ht]
      · simp [pruneScan]
      · simp [pruneScan]
      · simpa [pruneScan] using w.sameExceptArray_refl sl.arr
  | succ fuel ih =>
      intro w sl k rv hf
      by_cases hk : k < sl.len
      · have hkl : k < (w.readSlice sl).length := by rw [w.readSlice_length]; exact hk
        have hCk : (w.readSlice sl)[k] = w.arrays sl.arr (sl.off + k) := by
          have h1 := w.readSlice_getElem? sl k
          rw [if_pos hk, List.getElem?_eq_getElem hkl] at h1
          exact Option.some.inj h1
        have hC : (w.readSlice sl).drop k =
            w.arrays sl.arr (sl.off + k) :: (w.readSlice sl).drop (k + 1) := by
          rw [List.drop_eq_getElem_cons hkl, hCk]
        by_cases hm : (w.arrays sl.arr (sl.off + k)).T = T
        · simp only [pruneScan, if_pos hk, if_pos hm]
          have hrs := w.readSlice_deleteAt sl k hk
          have hlk : ((w.readSlice sl).take k).length = k := by
            rw [List.length_take, w.readSlice_length]; omega
          have hfe : (w.deleteAt sl k).2.len - k ≤ fuel := by
            rw [World.deleteAt_slice]; dsimp only; omega
          obtain ⟨h1, h2, h3, h4, h5⟩ :=
            ih (w.deleteAt sl k).1 (w.deleteAt sl k).2 k
              (rv ++ [w.arrays sl.arr (sl.off + k)]) hfe
          have hdk : ((w.deleteAt sl k).1.readSlice (w.deleteAt sl k).2).drop k =
              (w.readSlice sl).drop (k + 1) := by
            rw [hrs, List.drop_left' hlk]
          have htk : ((w.deleteAt sl k).1.readSlice (w.deleteAt sl k).2).take k =
              (w.readSlice sl).take k := by
            rw [hrs, List.take_left' hlk]
          refine ⟨?_, ?_, ?_, ?_, ?_⟩
          · rw [h1, hdk, hC, List.filter_cons, if_pos (by simp [hm])]
            simp [List.append_assoc]
          · rw [h2, hdk, htk, hC, List.filter_cons, if_neg (by simp [hm])]
          · rw [h3, World.deleteAt_slice]
          · rw [h4, World.deleteAt_slice]
          · exact World.sameExceptArray_trans (w.deleteAt_sameExceptArray sl k)
              (by rw [World.deleteAt_slice] at h5; exact h5)
        · simp only [pruneScan, if_pos hk, if_neg hm]
          obtain ⟨h1, h2, h3, h4, h5⟩ := ih w sl (k + 1) rv (by omega)
          have htk1 : (w.readSlice sl).take (k + 1) =
              (w.readSlice sl).take k ++ [w.arrays sl.arr (sl.off + k)] := by
            rw [List.take_succ, List.getElem?_eq_getElem hkl, hCk]
            rfl
          refine ⟨?_, ?_, h3, h4, h5⟩
          · rw [h1, hC, List.filter_cons, if_neg (by simp [hm])]
          · rw [h2, htk1, hC, List.filter_cons, if_pos (by simp [hm])]
            simp [List.append_assoc]
      · have hd : (w.readSlice sl).drop k = [] :=
          List.drop_eq_nil_of_le (by rw [w.readSlice_length]; omega)
        have ht : (w.readSlice sl).take k = w.readSlice sl :=
          List.take_of_length_le (by rw [w.readSlice_length]; omega)
        refine ⟨?_, ?_, ?_, ?_, ?_⟩
        · simp [pruneScan, if_neg hk, hd]
        · simp [pruneScan, if_neg hk, hd, ht]
        · simp [pruneScan, if_neg hk]
        · simp [pruneScan, if_neg hk]
        · simpa [pruneScan, if_neg hk] using w.sameExceptArray_refl sl.arr

theorem listFlatMapCongr {α β : Type} {l : List α} {f g : α → List β}
    (h : ∀ a ∈ l, f a = g a) : l.flatMap f = l.flatMap g := by
  induction l with
  | nil => rfl
  | cons x xs ih =>
      rw [List.flatMap_cons, List.flatMap_cons, h x (List.mem_cons_self x xs),
        ih fun a ha => h a (List.mem_cons_of_mem x ha)]

theorem pruneSlice_spec :
    ∀ (ts : List Ty) (w : World) (sl : ArgSlice) (rv : List Arg),
      ts.Nodup →
      (pruneSlice w sl ts rv).2.2 =
          rv ++ ts.flatMap
            (fun T => (w.readSlice sl).filter fun a => decide (a.T = T)) ∧
        (pruneSlice w sl ts rv).1.readSlice (pruneSlice w sl ts rv).2.1 =
          (w.readSlice sl).filter (fun a => !decide (a.T ∈ ts)) ∧
        (pruneSlice w sl ts rv).2.1.arr = sl.arr ∧
        (pruneSlice w sl ts rv).2.1.off = sl.off ∧
        World.SameExceptArray w (pruneSlice w sl ts rv).1 sl.arr := by
  intro ts
  induction ts with
  | nil =>
      intro w sl rv _
      refine ⟨by simp [pruneSlice], ?_, rfl, rfl, w.sameExceptArray_refl sl.arr⟩
      have : (w.readSlice sl).filter (fun a => !decide (a.T ∈ ([] : List Ty))) =
          (w.readSlice sl).filter (fun _ => true) := by
        apply List.filter_congr
        intro a _
        simp
      rw [pruneSlice, this, List.filter_true]
  | cons T rest ih =>
      intro w sl rv hnd
      rw [List.nodup_cons] at hnd
      obtain ⟨hTn, hrest⟩ := hnd
      obtain ⟨p1, p2, p3, p4, p5⟩ :=
        pruneScan_spec T sl.len w sl 0 rv (by omega)
      rw [List.drop_zero] at p1 p2
      rw [List.take_zero, List.nil_append] at p2
      obtain ⟨q1, q2, q3, q4, q5⟩ :=
        ih (pruneScan w sl T 0 rv sl.len).1 (pruneScan w sl T 0 rv sl.len).2.1
          (pruneScan w sl T 0 rv sl.len).2.2 hrest
      have hq1 : (pruneSlice w sl (T :: rest) rv) =
          pruneSlice (pruneScan w sl T 0 rv sl.len).1
            (pruneScan w sl T 0 rv sl.len).2.1 rest
            (pruneScan w sl T 0 rv sl.len).2.2 := rfl
      refine ⟨?_, ?_, ?_, ?_, ?_⟩
      · rw [hq1, q1, p1, p2, List.flatMap_cons, ← List.append_assoc]
        congr 1
        apply listFlatMapCongr
        intro T' hT'
        have hne : T' ≠ T := fun he => hTn (he ▸ hT')
        rw [List.filter_filter]
        apply List.filter_congr
        intro a _
        by_cases ha : a.T = T'
        · simp [ha, hne]
        · simp [ha]
      · rw [hq1, q2, p2, List.filter_filter]
        apply List.filter_congr
        intro a _
        by_cases ha : a.T ∈ rest <;> by_cases hb : a.T = T <;>
          simp [ha, hb, List.mem_cons]
      · rw [hq1, q3, p3]
      · rw [hq1, q4, p4]
      · rw [hq1]
        refine World.sameExceptArray_trans p5 ?_
        rw [p3] at q5
        exact q5

theorem World.readSlice_sameExceptArray {w w' : World} {a : Nat}
    (h : World.SameExceptArray w w' a) {sl : ArgSlice} (hne : sl.arr ≠ a) :
    w'.readSlice sl = w.readSlice sl := by
  unfold World.readSlice
  exact List.map_congr_left fun i _ => by rw [h.2.2.2.2.2 sl.arr hne]

theorem Func.PruneIn_spec (f : Func) (ts : List Ty) (w : World)
    (hnd : ts.Nodup) (harr : f.InCache.arr ≠ f.InCreate.arr) :
    (f.PruneIn ts w).2.2 =
        ts.flatMap
            (fun T => (w.readSlice f.InCache).filter fun a => decide (a.T = T)) ++
          ts.flatMap
            (fun T => (w.readSlice f.InCreate).filter fun a => decide (a.T = T)) ∧
      (f.PruneIn ts w).2.1.readSlice (f.PruneIn ts w).1.InCache =
        (w.readSlice f.InCache).filter (fun a => !decide (a.T ∈ ts)) ∧
      (f.PruneIn ts w).2.1.readSlice (f.PruneIn ts w).1.InCreate =
        (w.readSlice f.InCreate).filter (fun a => !decide (a.T ∈ ts)) ∧
      (f.PruneIn ts w).2.1.instances = w.instances ∧
      (f.PruneIn ts w).2.1.pool = w.pool ∧
      (f.PruneIn ts w).2.1.nextAddr = w.nextAddr ∧
      (f.PruneIn ts w).2.1.heap = w.heap ∧
      (f.PruneIn ts w).2.1.narrays = w.narrays := by
  obtain ⟨p1, p2, p3, p4, p5⟩ := pruneSlice_spec ts w f.InCache [] hnd
  have hcreate1 : (pruneSlice w f.InCache ts []).1.readSlice f.InCreate =
      w.readSlice f.InCreate :=
    World.readSlice_sameExceptArray p5 fun he => harr he.symm
  obtain ⟨q1, q2, q3, q4, q5⟩ :=
    pruneSlice_spec ts (pruneSlice w f.InCache ts []).1 f.InCreate
      (pruneSlice w f.InCache ts []).2.2 hnd
  have hPr : f.PruneIn ts w =
      ({ f with
          InCache := (pruneSlice w f.InCache ts []).2.1
          InCreate := (pruneSlice (pruneSlice w f.InCache ts []).1 f.InCreate ts
            (pruneSlice w f.InCache ts []).2.2).2.1 },
        (pruneSlice (pruneSlice w f.InCache ts []).1 f.InCreate ts
          (pruneSlice w f.InCache ts []).2.2).1,
        (pruneSlice (pruneSlice w f.InCache ts []).1 f.InCreate ts
          (pruneSlice w f.InCache ts []).2.2).2.2) := rfl
  have hcacheStable :
      (pruneSlice (pruneSlice w f.InCache ts []).1 f.InCreate ts
          (pruneSlice w f.InCache ts []).2.2).1.readSlice
        (pruneSlice w f.InCache ts []).2.1 =
      (pruneSlice w f.InCache ts []).1.readSlice
        (pruneSlice w f.InCache ts []).2.1 := by
    apply World.readSlice_sameExceptArray q5
    rw [p3]
    exact harr
  refine ⟨?_, ?_, ?_, ?_, ?_, ?_, ?_, ?_⟩
  · rw [hPr]
    dsimp only
    rw [q1, p1, hcreate1, List.nil_append]
  · rw [hPr]
    dsimp only
    rw [hcacheStable, p2]
  · rw [hPr]
    dsimp only
    rw [q2, hcreate1]
  · rw [hPr]; dsimp only; rw [q5.1, p5.1]
  · rw [hPr]; dsimp only; rw [q5.2.1, p5.2.1]
  · rw [hPr]; dsimp only; rw [q5.2.2.1, p5.2.2.1]
  · rw [hPr]; dsimp only; rw [q5.2.2.2.1, p5.2.2.2.1]
  · rw [hPr]; dsimp only; rw [q5.2.2.2.2.1, p5.2.2.2.2.1]

/-! ## Pool and fill-loop lemmas -/

/-- Every buffer sitting in the argument pool is fully cleared (the pool's
`New` makes zeroed buffers and `Call` clears before `Put`), with parallel
`Values` / `Pointers` slices. -/
def PoolClean (w : World) : Prop :=
  ∀ a ∈ w.pool, (∀ v ∈ a.values, v = Val.invalid) ∧
    (∀ p ∈ a.pointers, p = none) ∧ a.pointers.length = a.values.length

theorem poolGet_clean (w : World) (hc : PoolClean w) :
    (∀ v ∈ (poolGet w.pool).1.values, v = Val.invalid) ∧
      (∀ p ∈ (poolGet w.pool).1.pointers, p = none) ∧
      (poolGet w.pool).1.pointers.length = (poolGet w.pool).1.values.length := by
  rcases hw : w.pool with _ | ⟨b, rest⟩
  · refine ⟨fun v hv => ?_, fun p hp => ?_, by simp [poolGet]⟩
    · exact List.eq_of_mem_replicate hv
    · exact List.eq_of_mem_replicate hp
  · exact hc b (by rw [hw]; exact List.mem_cons_self b rest)

theorem poolGet_reset_reslice (w : World) (n : Nat) (hc : PoolClean w) :
    (((poolGet w.pool).1.Reset n).reslice n).values = List.replicate n Val.invalid ∧
      (((poolGet w.pool).1.Reset n).reslice n).pointers =
        List.replicate n (none : Option Nat) := by
  obtain ⟨hv, hp, hl⟩ := poolGet_clean w hc
  by_cases hlen : (poolGet w.pool).1.values.length < n
  · have hr : (poolGet w.pool).1.Reset n =
        ⟨List.replicate n Val.invalid, List.replicate n none⟩ := by
      unfold Args.Reset
      rw [if_pos hlen]
    rw [hr]
    constructor
    · show (List.replicate n Val.invalid).take n = _
      rw [List.take_replicate, Nat.min_self]
    · show (List.replicate n (none : Option Nat)).take n = _
      rw [List.take_replicate, Nat.min_self]
  · have hr : (poolGet w.pool).1.Reset n = (poolGet w.pool).1 := by
      unfold Args.Reset
      rw [if_neg hlen]
    rw [hr]
    constructor
    · show ((poolGet w.pool).1.values.take n) = _
      rw [List.eq_replicate_iff]
      exact ⟨by rw [List.length_take]; omega,
        fun v hva => hv v (List.take_subset n _ hva)⟩
    · show ((poolGet w.pool).1.pointers.take n) = _
      rw [List.eq_replicate_iff]
      exact ⟨by rw [List.length_take]; omega,
        fun p hpa => hp p (List.take_subset n _ hpa)⟩

theorem fillCreate_lengths :
    ∀ (entries : List Arg) (a : Args) (next : Nat) (heap : Nat → Option Val),
      (fillCreate entries a next heap).1.values.length = a.values.length ∧
        (fillCreate entries a next heap).1.pointers.length = a.pointers.length := by
  intro entries
  induction entries with
  | nil => intro a next heap; exact ⟨rfl, rfl⟩
  | cons e rest ih =>
      intro a next heap
      obtain ⟨h1, h2⟩ := ih ⟨a.values.set e.N e.T.zero, a.pointers.set e.N (some next)⟩
        (next + 1) (fun ad => if ad = next then some e.T.zero else heap ad)
      constructor
      · rw [fillCreate, h1]; exact List.length_set a.values e.N e.T.zero
      · rw [fillCreate, h2]; exact List.length_set a.pointers e.N (some next)

theorem fillCreate_next_heap :
    ∀ (entries : List Arg) (a : Args) (next : Nat) (heap : Nat → Option Val),
      (fillCreate entries a next heap).2.1 = next + entries.length ∧
        ∀ ad, ad < next → (fillCreate entries a next heap).2.2 ad = heap ad := by
  intro entries
  induction entries with
  | nil => intro a next heap; exact ⟨rfl, fun _ _ => rfl⟩
  | cons e rest ih =>
      intro a next heap
      obtain ⟨h1, h2⟩ := ih ⟨a.values.set e.N e.T.zero, a.pointers.set e.N (some next)⟩
        (next + 1) (fun ad => if ad = next then some e.T.zero else heap ad)
      constructor
      · rw [fillCreate, h1, List.length_cons]; omega
      · intro ad had
        rw [fillCreate, h2 ad (by omega)]
        rw [if_neg (by omega)]

theorem fillCreate_untouched :
    ∀ (entries : List Arg) (a : Args) (next : Nat) (heap : Nat → Option Val) (n : Nat),
      (∀ e ∈ entries, e.N ≠ n) →
      (fillCreate entries a next heap).1.values[n]? = a.values[n]? ∧
        (fillCreate entries a next heap).1.pointers[n]? = a.pointers[n]? := by
  intro entries
  induction entries with
  | nil => intro a next heap n _; exact ⟨rfl, rfl⟩
  | cons e rest ih =>
      intro a next heap n hn
      obtain ⟨h1, h2⟩ := ih ⟨a.values.set e.N e.T.zero, a.pointers.set e.N (some next)⟩
        (next + 1) (fun ad => if ad = next then some e.T.zero else heap ad) n
        (fun x hx => hn x (List.mem_cons_of_mem e hx))
      have hne : e.N ≠ n := hn e (List.mem_cons_self e rest)
      constructor
      · rw [fillCreate, h1]
        exact List.getElem?_set_ne hne
      · rw [fillCreate, h2]
        exact List.getElem?_set_ne hne

theorem fillCreate_hit :
    ∀ (entries : List Arg) (a : Args) (next : Nat) (heap : Nat → Option Val) (e : Arg),
      (entries.map Arg.N).Nodup → e ∈ entries →
      e.N < a.values.length → e.N < a.pointers.length →
      ∃ addr, next ≤ addr ∧
        (fillCreate entries a next heap).1.values[e.N]? = some e.T.zero ∧
        (fillCreate entries a next heap).1.pointers[e.N]? = some (some addr) ∧
        (fillCreate entries a next heap).2.2 addr = some e.T.zero := by
  intro entries
  induction entries with
  | nil => intro a next heap e _ he; exact absurd he (List.not_mem_nil e)
  | cons e0 rest ih =>
      intro a next heap e hnd he hv hp
      rw [List.map_cons, List.nodup_cons] at hnd
      rcases List.mem_cons.mp he with he0 | herest
      · subst he0
        have hrest : ∀ x ∈ rest, x.N ≠ e.N := by
          intro x hx hxe
          exact hnd.1 (hxe ▸ List.mem_map_of_mem Arg.N hx)
        obtain ⟨h1, h2⟩ := fillCreate_untouched rest
          ⟨a.values.set e.N e.T.zero, a.pointers.set e.N (some next)⟩
          (next + 1) (fun ad => if ad = next then some e.T.zero else heap ad) e.N hrest
        refine ⟨next, Nat.le_refl next, ?_, ?_, ?_⟩
        · rw [fillCreate, h1]
          exact List.getElem?_set_self hv
        · rw [fillCreate, h2]
          exact List.getElem?_set_self hp
        · rw [fillCreate]
          rw [(fillCreate_next_heap rest _ _ _).2 next (Nat.lt_succ_self next)]
          rw [if_pos rfl]
      · obtain ⟨addr, ha1, ha2, ha3, ha4⟩ := ih
          ⟨a.values.set e0.N e0.T.zero, a.pointers.set e0.N (some next)⟩
          (next + 1) (fun ad => if ad = next then some e0.T.zero else heap ad) e
          hnd.2 herest (by rw [List.length_set]; exact hv) (by rw [List.length_set]; exact hp)
        exact ⟨addr, by omega, by rw [fillCreate]; exact ha2, by rw [fillCreate]; exact ha3,
          by rw [fillCreate]; exact ha4⟩

theorem fillCache_lengths :
    ∀ (entries : List Arg) (a : Args),
      (fillCache entries a).values.length = a.values.length ∧
        (fillCache entries a).pointers.length = a.pointers.length := by
  intro entries
  induction entries with
  | nil => intro a; exact ⟨rfl, rfl⟩
  | cons e rest ih =>
      intro a
      obtain ⟨h1, h2⟩ := ih ⟨a.values.set e.N e.V, a.pointers.set e.N none⟩
      exact ⟨by rw [fillCache, h1, List.length_set],
        by rw [fillCache, h2, List.length_set]⟩

theorem fillCache_untouched :
    ∀ (entries : List Arg) (a : Args) (n : Nat),
      (∀ e ∈ entries, e.N ≠ n) →
      (fillCache entries a).values[n]? = a.values[n]? ∧
        (fillCache entries a).pointers[n]? = a.pointers[n]? := by
  intro entries
  induction entries with
  | nil => intro a n _; exact ⟨rfl, rfl⟩
  | cons e rest ih =>
      intro a n hn
      obtain ⟨h1, h2⟩ := ih ⟨a.values.set e.N e.V, a.pointers.set e.N none⟩ n
        (fun x hx => hn x (List.mem_cons_of_mem e hx))
      have hne : e.N ≠ n := hn e (List.mem_cons_self e rest)
      exact ⟨by rw [fillCache, h1]; exact List.getElem?_set_ne hne,
        by rw [fillCache, h2]; exact List.getElem?_set_ne hne⟩

theorem fillCache_hit :
    ∀ (entries : List Arg) (a : Args) (e : Arg),
      (entries.map Arg.N).Nodup → e ∈ entries →
      e.N < a.values.length → e.N < a.pointers.length →
      (fillCache entries a).values[e.N]? = some e.V ∧
        (fillCache entries a).pointers[e.N]? = some none := by
  intro entries
  induction entries with
  | nil => intro a e _ he; exact absurd he (List.not_mem_nil e)
  | cons e0 rest ih =>
      intro a e hnd he hv hp
      rw [List.map_cons, List.nodup_cons] at hnd
      rcases List.mem_cons.mp he with he0 | herest
      · subst he0
        have hrest : ∀ x ∈ rest, x.N ≠ e.N := by
          intro x hx hxe
          exact hnd.1 (hxe ▸ List.mem_map_of_mem Arg.N hx)
        obtain ⟨h1, h2⟩ := fillCache_untouched rest
          ⟨a.values.set e.N e.V, a.pointers.set e.N none⟩ e.N hrest
        exact ⟨by rw [fillCache, h1]; exact List.getElem?_set_self hv,
          by rw [fillCache, h2]; exact List.getElem?_set_self hp⟩
      · obtain ⟨h1, h2⟩ := ih ⟨a.values.set e0.N e0.V, a.pointers.set e0.N none⟩ e hnd.2 herest
          (by rw [List.length_set]; exact hv) (by rw [List.length_set]; exact hp)
        exact ⟨by rw [fillCache]; exact h1, by rw [fillCache]; exact h2⟩

/-! ## Classification lemmas -/

theorem classifyCreate_mem :
    ∀ (ins : List Ty) (k : Nat) (e : Arg),
      e ∈ classifyCreate k ins ↔
        ∃ i, ∃ h : i < ins.length,
          e = ⟨k + i, ins[i], .invalid⟩ ∧ ins[i].kind ≠ .kInterface := by
  intro ins
  induction ins with
  | nil =>
      intro k e
      simp [classifyCreate]
  | cons t rest ih =>
      intro k e
      rw [classifyCreate, List.mem_append]
      constructor
      · intro h
        rcases h with h | h
        · by_cases ht : t.kind = .kInterface
          · rw [if_pos ht] at h
            exact absurd h (List.not_mem_nil e)
          · rw [if_neg ht] at h
            rcases List.mem_singleton.mp h with rfl
            exact ⟨0, by simp, by simp, by simpa using ht⟩
        · obtain ⟨i, hi, he, hk⟩ := (ih (k + 1) e).mp h
          refine ⟨i + 1, by simp; omega, ?_, by simpa using hk⟩
          rw [he, show k + 1 + i = k + (i + 1) from by omega]
          simp [List.getElem_cons_succ]
      · rintro ⟨i, hi, he, hk⟩
        cases i with
        | zero =>
            left
            rw [if_neg (by simpa using hk)]
            simp only [List.getElem_cons_zero] at he
            rw [List.mem_singleton, he, Nat.add_zero]
        | succ j =>
            right
            refine (ih (k + 1) e).mpr ⟨j, by simpa using Nat.lt_of_succ_lt_succ hi, ?_, ?_⟩
            · rw [he, show k + (j + 1) = k + 1 + j from by omega]
              simp [List.getElem_cons_succ]
            · simpa using hk

theorem classifyCache_mem :
    ∀ (ins : List Ty) (k : Nat) (e : Arg),
      e ∈ classifyCache k ins ↔
        ∃ i, ∃ h : i < ins.length,
          e = ⟨k + i, ins[i], (ins[i]).zero⟩ ∧ ins[i].kind = .kInterface := by
  intro ins
  induction ins with
  | nil =>
      intro k e
      simp [classifyCache]
  | cons t rest ih =>
      intro k e
      rw [classifyCache, List.mem_append]
      constructor
      · intro h
        rcases h with h | h
        · by_cases ht : t.kind = .kInterface
          · rw [if_pos ht] at h
            rcases List.mem_singleton.mp h with rfl
            exact ⟨0, by simp, by simp, by simpa using ht⟩
          · rw [if_neg ht] at h
            exact absurd h (List.not_mem_nil e)
        · obtain ⟨i, hi, he, hk⟩ := (ih (k + 1) e).mp h
          refine ⟨i + 1, by simp; omega, ?_, by simpa using hk⟩
          rw [he, show k + 1 + i = k + (i + 1) from by omega]
          simp [List.getElem_cons_succ]
      · rintro ⟨i, hi, he, hk⟩
        cases i with
        | zero =>
            left
            rw [if_pos (by simpa using hk)]
            simp only [List.getElem_cons_zero] at he
            rw [List.mem_singleton, he, Nat.add_zero]
        | succ j =>
            right
            refine (ih (k + 1) e).mpr ⟨j, by simpa using Nat.lt_of_succ_lt_succ hi, ?_, ?_⟩
            · rw [he, show k + (j + 1) = k + 1 + j from by omega]
              simp [List.getElem_cons_succ]
            · simpa using hk

/-! ## `Func.Args` characterization -/

theorem Func.Args_lengths (f : Func) (w : World) (hc : PoolClean w) :
    (f.Args w).1.values.length = f.NumIn ∧
      (f.Args w).1.pointers.length = f.NumIn := by
  obtain ⟨hv, hp⟩ := poolGet_reset_reslice w f.NumIn hc
  constructor
  · show (fillCache (w.readSlice f.InCache)
        (fillCreate (w.readSlice f.InCreate)
          (((poolGet w.pool).1.Reset f.NumIn).reslice f.NumIn)
          w.nextAddr w.heap).1).values.length = f.NumIn
    rw [(fillCache_lengths _ _).1, (fillCreate_lengths _ _ _ _).1, hv,
      List.length_replicate]
  · show (fillCache (w.readSlice f.InCache)
        (fillCreate (w.readSlice f.InCreate)
          (((poolGet w.pool).1.Reset f.NumIn).reslice f.NumIn)
          w.nextAddr w.heap).1).pointers.length = f.NumIn
    rw [(fillCache_lengths _ _).2, (fillCreate_lengths _ _ _ _).2, hp,
      List.length_replicate]

theorem Func.Args_world (f : Func) (w : World) :
    (f.Args w).2.arrays = w.arrays ∧ (f.Args w).2.narrays = w.narrays ∧
      (f.Args w).2.instances = w.instances ∧
      (f.Args w).2.pool = (poolGet w.pool).2 ∧
      w.nextAddr ≤ (f.Args w).2.nextAddr := by
  refine ⟨rfl, rfl, rfl, rfl, ?_⟩
  show w.nextAddr ≤ (fillCreate (w.readSlice f.InCreate)
    (((poolGet w.pool).1.Reset f.NumIn).reslice f.NumIn) w.nextAddr w.heap).2.1
  rw [(fillCreate_next_heap _ _ _ _).1]
  omega

theorem Func.Args_create (f : Func) (w : World) (hc : PoolClean w)
    (hnd : ((w.readSlice f.InCreate ++ w.readSlice f.InCache).map Arg.N).Nodup)
    (e : Arg) (he : e ∈ w.readSlice f.InCreate) (hbound : e.N < f.NumIn) :
    ∃ addr, w.nextAddr ≤ addr ∧
      (f.Args w).1.values[e.N]? = some e.T.zero ∧
      (f.Args w).1.pointers[e.N]? = some (some addr) ∧
      (f.Args w).2.heap addr = some e.T.zero := by
  obtain ⟨hv, hp⟩ := poolGet_reset_reslice w f.NumIn hc
  rw [List.map_append, List.nodup_append] at hnd
  obtain ⟨hndCr, hndCa, hdisj⟩ := hnd
  obtain ⟨addr, h1, h2, h3, h4⟩ :=
    fillCreate_hit (w.readSlice f.InCreate)
      (((poolGet w.pool).1.Reset f.NumIn).reslice f.NumIn) w.nextAddr w.heap e hndCr he
      (by rw [hv, List.length_replicate]; exact hbound)
      (by rw [hp, List.length_replicate]; exact hbound)
  have hcn : ∀ c ∈ w.readSlice f.InCache, c.N ≠ e.N := by
    intro c hcm hce
    exact hdisj (List.mem_map_of_mem Arg.N he)
      (hce ▸ List.mem_map_of_mem Arg.N hcm)
  obtain ⟨hu1, hu2⟩ := fillCache_untouched (w.readSlice f.InCache)
    (fillCreate (w.readSlice f.InCreate)
      (((poolGet w.pool).1.Reset f.NumIn).reslice f.NumIn) w.nextAddr w.heap).1 e.N hcn
  exact ⟨addr, h1, hu1.trans h2, hu2.trans h3, h4⟩

theorem Func.Args_cache (f : Func) (w : World) (hc : PoolClean w)
    (hnd : ((w.readSlice f.InCreate ++ w.readSlice f.InCache).map Arg.N).Nodup)
    (e : Arg) (he : e ∈ w.readSlice f.InCache) (hbound : e.N < f.NumIn) :
    (f.Args w).1.values[e.N]? = some e.V ∧
      (f.Args w).1.pointers[e.N]? = some none := by
  obtain ⟨hv, hp⟩ := poolGet_reset_reslice w f.NumIn hc
  rw [List.map_append, List.nodup_append] at hnd
  obtain ⟨hndCr, hndCa, hdisj⟩ := hnd
  refine fillCache_hit (w.readSlice f.InCache) _ e hndCa he ?_ ?_
  · rw [(fillCreate_lengths _ _ _ _).1, hv, List.length_replicate]
    exact hbound
  · rw [(fillCreate_lengths _ _ _ _).2, hp, List.length_replicate]
    exact hbound

theorem Func.Args_unpopulated (f : Func) (w : World) (hc : PoolClean w)
    (n : Nat) (hbound : n < f.NumIn)
    (hn : ∀ e ∈ w.readSlice f.InCreate ++ w.readSlice f.InCache, e.N ≠ n) :
    (f.Args w).1.values[n]? = some Val.invalid ∧
      (f.Args w).1.pointers[n]? = some none := by
  obtain ⟨hv, hp⟩ := poolGet_reset_reslice w f.NumIn hc
  obtain ⟨hu1, hu2⟩ := fillCache_untouched (w.readSlice f.InCache)
    (fillCreate (w.readSlice f.InCreate)
      (((poolGet w.pool).1.Reset f.NumIn).reslice f.NumIn) w.nextAddr w.heap).1 n
    (fun e hce => hn e (List.mem_append_right _ hce))
  obtain ⟨hw1, hw2⟩ := fillCreate_untouched (w.readSlice f.InCreate)
    (((poolGet w.pool).1.Reset f.NumIn).reslice f.NumIn) w.nextAddr w.heap n
    (fun e hce => hn e (List.mem_append_left _ hce))
  refine ⟨?_, ?_⟩
  · show (fillCache (w.readSlice f.InCache)
        (fillCreate (w.readSlice f.InCreate)
          (((poolGet w.pool).1.Reset f.NumIn).reslice f.NumIn)
          w.nextAddr w.heap).1).values[n]? = some Val.invalid
    rw [hu1, hw1, hv, List.getElem?_replicate, if_pos hbound]
  · show (fillCache (w.readSlice f.InCache)
        (fillCreate (w.readSlice f.InCreate)
          (((poolGet w.pool).1.Reset f.NumIn).reslice f.NumIn)
          w.nextAddr w.heap).1).pointers[n]? = some none
    rw [hu2, hw2, hp, List.getElem?_replicate, if_pos hbound]

theorem classifyCreate_N_ge (ins : List Ty) (k : Nat) (e : Arg)
    (he : e ∈ classifyCreate k ins) : k ≤ e.N := by
  obtain ⟨i, hi, he, _⟩ := (classifyCreate_mem ins k e).mp he
  rw [he]
  show k ≤ k + i
  omega

theorem classifyCache_N_ge (ins : List Ty) (k : Nat) (e : Arg)
    (he : e ∈ classifyCache k ins) : k ≤ e.N := by
  obtain ⟨i, hi, he, _⟩ := (classifyCache_mem ins k e).mp he
  rw [he]
  show k ≤ k + i
  omega

theorem classifyCreate_map_N_nodup (ins : List Ty) :
    ∀ k, ((classifyCreate k ins).map Arg.N).Nodup := by
  induction ins with
  | nil => intro k; simp [classifyCreate]
  | cons t rest ih =>
      intro k
      rw [classifyCreate, List.map_append, List.nodup_append]
      refine ⟨?_, ih (k + 1), ?_⟩
      · by_cases ht : t.kind = .kInterface <;> simp [ht]
      · intro n hn1 hn2
        obtain ⟨e1, he1, hne1⟩ := List.mem_map.mp hn1
        obtain ⟨e2, he2, hne2⟩ := List.mem_map.mp hn2
        have h2 : k + 1 ≤ e2.N := classifyCreate_N_ge rest (k + 1) e2 he2
        by_cases ht : t.kind = .kInterface
        · rw [if_pos ht] at he1
          exact absurd he1 (List.not_mem_nil e1)
        · rw [if_neg ht] at he1
          rcases List.mem_singleton.mp he1 with rfl
          have hkn : k = n := hne1
          omega

theorem classifyCache_map_N_nodup (ins : List Ty) :
    ∀ k, ((classifyCache k ins).map Arg.N).Nodup := by
  induction ins with
  | nil => intro k; simp [classifyCache]
  | cons t rest ih =>
      intro k
      rw [classifyCache, List.map_append, List.nodup_append]
      refine ⟨?_, ih (k + 1), ?_⟩
      · by_cases ht : t.kind = .kInterface <;> simp [ht]
      · intro n hn1 hn2
        obtain ⟨e1, he1, hne1⟩ := List.mem_map.mp hn1
        obtain ⟨e2, he2, hne2⟩ := List.mem_map.mp hn2
        have h2 : k + 1 ≤ e2.N := classifyCache_N_ge rest (k + 1) e2 he2
        by_cases ht : t.kind = .kInterface
        · rw [if_pos ht] at he1
          rcases List.mem_singleton.mp he1 with rfl
          have hkn : k = n := hne1
          omega
        · rw [if_neg ht] at he1
          exact absurd he1 (List.not_mem_nil e1)

theorem classify_append_nodup (ins : List Ty) (k : Nat) :
    ((classifyCreate k ins ++ classifyCache k ins).map Arg.N).Nodup := by
  rw [List.map_append, List.nodup_append]
  refine ⟨classifyCreate_map_N_nodup ins k, classifyCache_map_N_nodup ins k, ?_⟩
  intro n hn1 hn2
  obtain ⟨e1, he1, hne1⟩ := List.mem_map.mp hn1
  obtain ⟨e2, he2, hne2⟩ := List.mem_map.mp hn2
  obtain ⟨i1, hi1, heq1, hk1⟩ := (classifyCreate_mem ins k e1).mp he1
  obtain ⟨i2, hi2, heq2, hk2⟩ := (classifyCache_mem ins k e2).mp he2
  have hN1 : e1.N = k + i1 := by rw [heq1]
  have hN2 : e2.N = k + i2 := by rw [heq2]
  have : i1 = i2 := by omega
  subst this
  exact hk1 hk2

theorem classifyCreate_pos (ins : List Ty) (K : Nat) (hK : K < ins.length)
    (hk : ins[K].kind ≠ .kInterface) :
    (⟨K, ins[K], .invalid⟩ : Arg) ∈ classifyCreate 0 ins := by
  refine (classifyCreate_mem ins 0 _).mpr ⟨K, hK, ?_, hk⟩
  rw [Nat.zero_add]

theorem classifyCache_pos (ins : List Ty) (K : Nat) (hK : K < ins.length)
    (hk : ins[K].kind = .kInterface) :
    (⟨K, ins[K], (ins[K]).zero⟩ : Arg) ∈ classifyCache 0 ins := by
  refine (classifyCache_mem ins 0 _).mpr ⟨K, hK, ?_, hk⟩
  rw [Nat.zero_add]

/-! ## `newFunc` / `StatFunc` glue -/

theorem newFunc_reads (F : GoFunc) (w : World) :
    (newFunc F w).2.readSlice (newFunc F w).1.InCreate = classifyCreate 0 F.ins ∧
      (newFunc F w).2.readSlice (newFunc F w).1.InCache = classifyCache 0 F.ins := by
  constructor
  · exact World.readSlice_allocArray_self _ _
  · show ((w.allocArray (classifyCache 0 F.ins)).2.allocArray
        (classifyCreate 0 F.ins)).2.readSlice (w.allocArray (classifyCache 0 F.ins)).1 =
      classifyCache 0 F.ins
    rw [World.readSlice_ext (World.ext_allocArray _ _) (World.allocArray_arr_lt w _)]
    exact World.readSlice_allocArray_self _ _

theorem newFunc_shape (F : GoFunc) (w : World) :
    (newFunc F w).1.fn = F.impl ∧ (newFunc F w).1.NumIn = F.ins.length ∧
      (newFunc F w).1.InTypes = F.ins ∧
      (newFunc F w).1.InKinds = F.ins.map Ty.kind ∧
      (newFunc F w).1.NumOut = F.outs.length ∧
      (newFunc F w).1.OutTypes = F.outs :=
  ⟨rfl, rfl, rfl, rfl, rfl, rfl⟩

theorem newFunc_world (F : GoFunc) (w : World) :
    (newFunc F w).2.pool = w.pool ∧ (newFunc F w).2.instances = w.instances ∧
      (newFunc F w).2.nextAddr = w.nextAddr ∧ (newFunc F w).2.heap = w.heap ∧
      (newFunc F w).1.InCache.arr ≠ (newFunc F w).1.InCreate.arr := by
  refine ⟨rfl, rfl, rfl, rfl, ?_⟩
  show w.narrays ≠ w.narrays + 1
  omega

theorem newFunc_ext (F : GoFunc) (w : World) : World.Ext w (newFunc F w).2 :=
  World.Ext.trans (World.ext_allocArray _ _) (World.ext_allocArray _ _)

theorem newFunc_arrs_lt (F : GoFunc) (w : World) :
    (newFunc F w).1.InCreate.arr < (newFunc F w).2.narrays ∧
      (newFunc F w).1.InCache.arr < (newFunc F w).2.narrays := by
  constructor
  · show w.narrays + 1 < w.narrays + 1 + 1
    omega
  · show w.narrays < w.narrays + 1 + 1
    omega

/-- The `PoolClean` invariant only concerns the pool, so it transfers along
any operation that leaves the pool untouched, and to the pool's tail. -/
theorem poolClean_of_pool_eq {w w' : World} (h : w'.pool = w.pool)
    (hc : PoolClean w) : PoolClean w' := fun a ha => hc a (h ▸ ha)

/-! ## `Func.Call` characterization -/

theorem classifyReturns_eq_find (rets : List Val) :
    classifyReturns rets = rets.reverse.find? Val.isError := by
  induction rets using List.reverseRecOn with
  | nil => rfl
  | append_singleton l x ih =>
      rw [classifyReturns, List.foldl_append, List.foldl_cons, List.foldl_nil,
        List.reverse_append, List.reverse_singleton, List.singleton_append]
      cases hx : x.isError
      · rw [if_neg Bool.false_ne_true,
          List.find?_cons_of_neg _ (by rw [hx]; exact Bool.false_ne_true)]
        exact ih
      · rw [if_pos rfl, List.find?_cons_of_pos _ hx]

theorem classifyReturns_isError {rets : List Val} {x : Val}
    (hx : classifyReturns rets = some x) : x.isError = true := by
  rw [classifyReturns_eq_find] at hx
  exact List.find?_some hx

theorem classifyReturns_eq_none_iff (rets : List Val) :
    classifyReturns rets = none ↔ ∀ v ∈ rets, v.isError = false := by
  rw [classifyReturns_eq_find, List.find?_eq_none]
  constructor
  · intro h v hv
    have := h v (List.mem_reverse.mpr hv)
    simpa using this
  · intro h v hv
    rw [h v (List.mem_reverse.mp hv)]
    exact Bool.false_ne_true

theorem Func.Call_pool (f : Func) (args : ArgsBuf) (w : World) :
    (f.Call args w).2.pool =
      (⟨args.values.map fun _ => Val.invalid,
        args.pointers.map fun _ => none⟩ : ArgsBuf) :: w.pool := by
  unfold Func.Call
  cases f.fn args.values <;> rfl

theorem Func.Call_world (f : Func) (args : ArgsBuf) (w : World) :
    (f.Call args w).2.arrays = w.arrays ∧ (f.Call args w).2.narrays = w.narrays ∧
      (f.Call args w).2.instances = w.instances ∧
      (f.Call args w).2.nextAddr = w.nextAddr ∧ (f.Call args w).2.heap = w.heap := by
  unfold Func.Call
  cases f.fn args.values <;> exact ⟨rfl, rfl, rfl, rfl, rfl⟩

theorem Func.Call_panic (f : Func) (args : ArgsBuf) (w : World)
    (h : f.fn args.values = none) : (f.Call args w).1 = none := by
  unfold Func.Call
  rw [h]

theorem Func.Call_returns (f : Func) (args : ArgsBuf) (w : World) (rets : List Val)
    (h : f.fn args.values = some rets) :
    (f.Call args w).1 = some ⟨classifyReturns rets, rets⟩ := by
  unfold Func.Call
  rw [h]

theorem Func.Call_panic_iff (f : Func) (args : ArgsBuf) (w : World) :
    (f.Call args w).1 = none ↔ f.fn args.values = none := by
  unfold Func.Call
  cases f.fn args.values
  · simp
  · simp

/-! ## `statType` and instance lemmas -/

theorem World.readSlice_dropFirst (w : World) (sl : ArgSlice) :
    w.readSlice sl.dropFirst = (w.readSlice sl).drop 1 := by
  apply List.ext_getElem?
  intro i
  rw [World.readSlice_getElem?, List.getElem?_drop, World.readSlice_getElem?]
  show (if i < sl.len - 1 then some (w.arrays sl.arr (sl.off + 1 + i)) else none) = _
  rcases Nat.lt_or_ge i (sl.len - 1) with h | h
  · rw [if_pos h, if_pos (by omega)]
    congr 2
    omega
  · rw [if_neg (by omega), if_neg (by omega)]

theorem buildMethods_spec (ref : Nat) :
    ∀ (gms : List GoMethod) (w : World),
      (buildMethods ref gms w).1.length = gms.length ∧
        World.Ext w (buildMethods ref gms w).2 ∧
        (buildMethods ref gms w).2.instances = w.instances ∧
        (buildMethods ref gms w).2.pool = w.pool ∧
        (buildMethods ref gms w).2.nextAddr = w.nextAddr ∧
        (buildMethods ref gms w).2.heap = w.heap ∧
        ∀ j, ∀ hj : j < gms.length, ∀ hj2 : j < (buildMethods ref gms w).1.length,
          (buildMethods ref gms w).1[j].Name = gms[j].name ∧
            (buildMethods ref gms w).1[j].instRef = ref ∧
            (buildMethods ref gms w).1[j].func.fn = gms[j].fn.impl ∧
            (buildMethods ref gms w).1[j].func.NumIn = gms[j].fn.ins.length ∧
            (buildMethods ref gms w).1[j].func.InTypes = gms[j].fn.ins ∧
            (buildMethods ref gms w).1[j].func.NumOut = gms[j].fn.outs.length ∧
            (buildMethods ref gms w).1[j].func.OutTypes = gms[j].fn.outs ∧
            (buildMethods ref gms w).2.readSlice
                (buildMethods ref gms w).1[j].func.InCreate =
              (classifyCreate 0 gms[j].fn.ins).drop 1 ∧
            (buildMethods ref gms w).2.readSlice
                (buildMethods ref gms w).1[j].func.InCache =
              classifyCache 0 gms[j].fn.ins ∧
            (buildMethods ref gms w).1[j].func.InCache.arr ≠
              (buildMethods ref gms w).1[j].func.InCreate.arr ∧
            (buildMethods ref gms w).1[j].func.InCreate.arr <
              (buildMethods ref gms w).2.narrays ∧
            (buildMethods ref gms w).1[j].func.InCache.arr <
              (buildMethods ref gms w).2.narrays := by
  intro gms
  induction gms with
  | nil =>
      intro w
      exact ⟨rfl, World.Ext.refl w, rfl, rfl, rfl, rfl, fun j hj _ => absurd hj (by simp)⟩
  | cons gm rest ih =>
      intro w
      obtain ⟨ih1, ih2, ih3, ih4, ih5, ih6, ih7⟩ := ih (newFunc gm.fn w).2
      have hext : World.Ext w (buildMethods ref (gm :: rest) w).2 :=
        World.Ext.trans (newFunc_ext gm.fn w) ih2
      have hbw : (buildMethods ref (gm :: rest) w).2 =
          (buildMethods ref rest (newFunc gm.fn w).2).2 := rfl
      refine ⟨by simp [buildMethods, ih1], hext,
        by rw [hbw, ih3, (newFunc_world gm.fn w).2.1],
        by rw [hbw, ih4, (newFunc_world gm.fn w).1],
        by rw [hbw, ih5, (newFunc_world gm.fn w).2.2.1],
        by rw [hbw, ih6, (newFunc_world gm.fn w).2.2.2.1], ?_⟩
      intro j hj hj2
      cases j with
      | zero =>
          have hm : (buildMethods ref (gm :: rest) w).1[0] =
              ⟨gm.name, { (newFunc gm.fn w).1 with
                InCreate := (newFunc gm.fn w).1.InCreate.dropFirst }, ref⟩ := rfl
          have hcrlt := (newFunc_arrs_lt gm.fn w).1
          have hcalt := (newFunc_arrs_lt gm.fn w).2
          have hstable : ∀ sl : ArgSlice, sl.arr < (newFunc gm.fn w).2.narrays →
              (buildMethods ref (gm :: rest) w).2.readSlice sl =
                (newFunc gm.fn w).2.readSlice sl := by
            intro sl hsl
            rw [hbw]
            exact World.readSlice_ext ih2 hsl
          refine ⟨rfl, rfl, rfl, rfl, rfl, rfl, rfl, ?_, ?_, ?_, ?_, ?_⟩
          · rw [hm]
            show (buildMethods ref (gm :: rest) w).2.readSlice
                (newFunc gm.fn w).1.InCreate.dropFirst = _
            rw [hstable _ (by show (newFunc gm.fn w).1.InCreate.arr < _; exact hcrlt)]
            rw [World.readSlice_dropFirst, (newFunc_reads gm.fn w).1]
            rfl
          · rw [hm]
            show (buildMethods ref (gm :: rest) w).2.readSlice
                (newFunc gm.fn w).1.InCache = _
            rw [hstable _ hcalt, (newFunc_reads gm.fn w).2]
            rfl
          · rw [hm]
            exact (newFunc_world gm.fn w).2.2.2.2
          · rw [hm]
            show (newFunc gm.fn w).1.InCreate.arr < _
            rw [hbw]
            exact Nat.lt_of_lt_of_le hcrlt ih2.1
          · rw [hm]
            show (newFunc gm.fn w).1.InCache.arr < _
            rw [hbw]
            exact Nat.lt_of_lt_of_le hcalt ih2.1
      | succ j =>
          have hj' : j < rest.length := by simpa using Nat.lt_of_succ_lt_succ hj
          have hj2' : j < (buildMethods ref rest (newFunc gm.fn w).2).1.length := by
            rw [ih1]; exact hj'
          have hm : (buildMethods ref (gm :: rest) w).1[j + 1] =
              (buildMethods ref rest (newFunc gm.fn w).2).1[j] := rfl
          have hgm : (gm :: rest)[j + 1] = rest[j] := rfl
          obtain ⟨g1, g2, g3, g4, g5, g6, g7, g8, g9, g10, g11, g12⟩ := ih7 j hj' hj2'
          rw [hm, hgm, hbw]
          exact ⟨g1, g2, g3, g4, g5, g6, g7, g8, g9, g10, g11, g12⟩

theorem getD_concat_length {α : Type} [Inhabited α] (l : List α) (x : α) :
    (l ++ [x]).getD l.length default = x := by
  rw [List.getD_eq_getElem?_getD, List.getElem?_concat_length]
  rfl

theorem getD_append_lt {α : Type} [Inhabited α] (l l2 : List α) (i : Nat)
    (h : i < l.length) : (l ++ l2).getD i default = l.getD i default := by
  rw [List.getD_eq_getElem?_getD, List.getElem?_append_left h,
    List.getD_eq_getElem?_getD]

theorem getD_set_self {α : Type} [Inhabited α] (l : List α) (i : Nat) (x : α)
    (h : i < l.length) : (l.set i x).getD i default = x := by
  rw [List.getD_eq_getElem?_getD, List.getElem?_set_self h]
  rfl

theorem getD_set_ne {α : Type} [Inhabited α] (l : List α) (i j : Nat) (x : α)
    (h : i ≠ j) : (l.set i x).getD j default = l.getD j default := by
  rw [List.getD_eq_getElem?_getD, List.getElem?_set_ne h,
    ← List.getD_eq_getElem?_getD]

theorem statType_spec (gt : GoType) (w : World) :
    (statType gt w).1 = w.instances.length ∧
      (statType gt w).2.instances =
        w.instances ++
          [{ Methods := (buildMethods w.instances.length gt.methods w).1
             receiver := ⟨gt.ty, gt.ty.zero⟩
             receiverType := gt.ty
             receiverValue := gt.ty.zero }] ∧
      (statType gt w).2.arrays = (buildMethods w.instances.length gt.methods w).2.arrays ∧
      (statType gt w).2.narrays = (buildMethods w.instances.length gt.methods w).2.narrays ∧
      (statType gt w).2.pool = w.pool ∧
      (statType gt w).2.nextAddr = w.nextAddr ∧
      (statType gt w).2.heap = w.heap := by
  obtain ⟨_, _, h3, h4, h5, h6, _⟩ := buildMethods_spec w.instances.length gt.methods w
  exact ⟨rfl, by show (buildMethods _ _ w).2.instances ++ _ = _; rw [h3], rfl, rfl,
    by show (buildMethods _ _ w).2.pool = _; rw [h4],
    by show (buildMethods _ _ w).2.nextAddr = _; rw [h5],
    by show (buildMethods _ _ w).2.heap = _; rw [h6]⟩

theorem instanceCopy_spec (r : Nat) (w : World) :
    (instanceCopy r w).1 = w.instances.length ∧
      (instanceCopy r w).2.instances =
        w.instances ++
          [{ w.instances.getD r default with
              Methods := (w.instances.getD r default).Methods.map
                fun m => { m with instRef := w.instances.length } }] ∧
      (instanceCopy r w).2.arrays = w.arrays ∧
      (instanceCopy r w).2.narrays = w.narrays ∧
      (instanceCopy r w).2.pool = w.pool ∧
      (instanceCopy r w).2.nextAddr = w.nextAddr ∧
      (instanceCopy r w).2.heap = w.heap :=
  ⟨rfl, rfl, rfl, rfl, rfl, rfl, rfl⟩

theorem instanceRebind_mismatch (r : Nat) (b : Boxed) (w : World)
    (h : b.ty ≠ (w.instances.getD r default).receiverType) :
    instanceRebind r b w = (w, true) := by
  unfold instanceRebind
  rw [if_neg h]

theorem instanceRebind_match (r : Nat) (b : Boxed) (w : World)
    (h : b.ty = (w.instances.getD r default).receiverType) :
    instanceRebind r b w =
      ({ w with
          instances := w.instances.set r
            { w.instances.getD r default with receiver := b, receiverValue := b.v } },
       false) := by
  unfold instanceRebind
  rw [if_pos h]

/-! ## Claim theorems -/

/-- C4: For every Signature (`Func`) built by introspection and every argument
container, `Call` returns a `Result` whose `Values` list contains exactly the
callable's return values boxed in declared order, and whose `Error` is the
last value in that order whose boxed (dynamic) value implements the error
capability, or none if no returned value implements it. -/
theorem c4_call_result (F : GoFunc) (w0 w : World) (args : ArgsBuf)
    (rets : List Val) (h : F.impl args.values = some rets) :
    ∃ res, ((StatFunc F w0).1.Call args w).1 = some res ∧
      res.values = rets ∧
      res.error = rets.reverse.find? Val.isError ∧
      (res.error = none ↔ ∀ v ∈ rets, v.isError = false) := by
  refine ⟨⟨classifyReturns rets, rets⟩, Func.Call_returns _ _ _ _ h, rfl,
    classifyReturns_eq_find rets, classifyReturns_eq_none_iff rets⟩

def c4F : GoFunc :=
  ⟨[], [⟨"error", .kInterface⟩, ⟨"int", .kInt⟩, ⟨"error", .kInterface⟩],
   fun _ => some [.errVal "first", .int 7, .errVal "last"]⟩

theorem c4_call_result_witness :
    ∃ res, ((StatFunc c4F World.empty).1.Call ⟨[], []⟩ World.empty).1 = some res ∧
      res.values = [.errVal "first", .int 7, .errVal "last"] ∧
      res.error = [Val.errVal "first", Val.int 7, Val.errVal "last"].reverse.find?
        Val.isError ∧
      (res.error = none ↔
        ∀ v ∈ [Val.errVal "first", Val.int 7, Val.errVal "last"], v.isError = false) :=
  c4_call_result c4F World.empty World.empty ⟨[], []⟩
    [.errVal "first", .int 7, .errVal "last"] rfl

/-- C6: For every `Call` invocation, on every exit path — normal return and
abnormal unwinding caused by a panic inside the invoked callable (the
`(f.Call args w).1 = none` case, which by the last conjunct occurs exactly
when the callable panics) — every slot of the argument container is cleared
(each value slot reset to the zero `reflect.Value`, each address slot nulled)
and the container is returned to the Argument Pool. -/
theorem c6_call_releases (f : Func) (args : ArgsBuf) (w : World) :
    ∃ cleared : ArgsBuf,
      (f.Call args w).2.pool = cleared :: w.pool ∧
      cleared.values.length = args.values.length ∧
      cleared.pointers.length = args.pointers.length ∧
      (∀ v ∈ cleared.values, v = Val.invalid) ∧
      (∀ p ∈ cleared.pointers, p = none) ∧
      ((f.Call args w).1 = none ↔ f.fn args.values = none) := by
  refine ⟨⟨args.values.map fun _ => .invalid, args.pointers.map fun _ => none⟩,
    Func.Call_pool f args w, by simp, by simp, ?_, ?_, Func.Call_panic_iff f args w⟩
  · intro v hv
    obtain ⟨_, _, hv2⟩ := List.mem_map.mp hv
    exact hv2.symm
  · intro p hp
    obtain ⟨_, _, hp2⟩ := List.mem_map.mp hp
    exact hp2.symm

def c10ErrTy : Ty := ⟨"error", .kInterface⟩

def c10F : GoFunc :=
  ⟨[], [c10ErrTy, c10ErrTy], fun _ => some [.errVal "boom", .zeroOf c10ErrTy]⟩

/-- C10 (counterexample): the claim "if the value actually returned at an
error-typed position is the nil interface value then `Result.Error` is none"
fails on a callable declaring two error returns that returns a non-nil error
first and the nil interface value second: position 1 is error-typed and holds
nil, yet `Result.Error` is the first (non-nil) error value, not none. -/
theorem c10_nil_error_counterexample :
    (StatFunc c10F World.empty).1.OutTypes[1]? = some c10ErrTy ∧
    c10F.impl (⟨[], []⟩ : ArgsBuf).values =
      some [Val.errVal "boom", Val.zeroOf c10ErrTy] ∧
    ((StatFunc c10F World.empty).1.Call ⟨[], []⟩ World.empty).1 =
      some ⟨some (Val.errVal "boom"), [Val.errVal "boom", Val.zeroOf c10ErrTy]⟩ ∧
    some (Val.errVal "boom") ≠ (none : Option Val) := by
  refine ⟨rfl, rfl, rfl, by simp⟩

/-- C10 (amended): For every callable whose declaration includes an
error-typed return position, if the value actually returned at that position
is the nil interface value, then that nil value is never classified as an
error: `Result.Error` is none unless some other returned value implements the
error capability, and `Result.Error` never becomes the nil value itself,
while `Result.Values` still contains the nil entry at its declared
position. -/
theorem c10_nil_error_not_classified (F : GoFunc) (w0 w : World)
    (args : ArgsBuf) (rets : List Val) (j : Nat) (t : Ty)
    (ht : t.kind = .kInterface)
    (h : F.impl args.values = some rets)
    (hj : rets[j]? = some (Val.zeroOf t)) :
    ∃ res, ((StatFunc F w0).1.Call args w).1 = some res ∧
      res.values[j]? = some (Val.zeroOf t) ∧
      (Val.zeroOf t).isError = false ∧
      (res.error = none ↔ ∀ v ∈ rets, v.isError = false) ∧
      res.error ≠ some (Val.zeroOf t) := by
  refine ⟨⟨classifyReturns rets, rets⟩, Func.Call_returns _ _ _ _ h, hj, rfl,
    classifyReturns_eq_none_iff rets, ?_⟩
  intro hEq
  have hErr := classifyReturns_isError hEq
  simp [Val.isError] at hErr

theorem c10_nil_error_not_classified_witness :
    ∃ res, ((StatFunc c10F World.empty).1.Call ⟨[], []⟩ World.empty).1 = some res ∧
      res.values[1]? = some (Val.zeroOf c10ErrTy) ∧
      (Val.zeroOf c10ErrTy).isError = false ∧
      (res.error = none ↔
        ∀ v ∈ [Val.errVal "boom", Val.zeroOf c10ErrTy], v.isError = false) ∧
      res.error ≠ some (Val.zeroOf c10ErrTy) :=
  c10_nil_error_not_classified c10F World.empty World.empty ⟨[], []⟩
    [Val.errVal "boom", Val.zeroOf c10ErrTy] 1 c10ErrTy rfl rfl rfl

theorem poolClean_after_args (f : Func) (w : World) (hc : PoolClean w) :
    PoolClean (f.Args w).2 := by
  intro a ha
  have hp : (f.Args w).2.pool = (poolGet w.pool).2 := (Func.Args_world f w).2.2.2.1
  rw [hp] at ha
  rcases hw : w.pool with _ | ⟨b, rest⟩
  · rw [hw] at ha
    exact absurd ha (List.not_mem_nil a)
  · rw [hw] at ha
    exact hc a (by rw [hw]; exact List.mem_cons_of_mem b ha)

theorem readSlice_of_arrays_eq {w w' : World} (h : w'.arrays = w.arrays)
    (sl : ArgSlice) : w'.readSlice sl = w.readSlice sl := by
  unfold World.readSlice
  rw [h]

/-- C5: For every un-pruned Signature built by introspection, `Args()`
returns a container whose `Values` and `Pointers` sequences both have length
equal to the parameter count; every auto-create (non-interface) position `K`
holds a freshly zero-initialized value of its declared type with
`Pointers[K]` an address (allocated by this very call) of that value, and
every shared-placeholder (interface) position `K` holds the single
nil-interface value cached at Signature build time — the identical value on
the next `Args()` call as well — with `Pointers[K]` null. -/
theorem c5_args_synthesis (F : GoFunc) (w0 : World) (hc : PoolClean w0)
    (K : Nat) (hK : K < F.ins.length) :
    ((StatFunc F w0).1.Args (StatFunc F w0).2).1.values.length =
        (StatFunc F w0).1.NumIn ∧
      ((StatFunc F w0).1.Args (StatFunc F w0).2).1.pointers.length =
        (StatFunc F w0).1.NumIn ∧
      (StatFunc F w0).1.NumIn = F.ins.length ∧
      (F.ins[K].kind ≠ .kInterface →
        ((StatFunc F w0).1.Args (StatFunc F w0).2).1.values[K]? =
            some (F.ins[K]).zero ∧
          ∃ addr, (StatFunc F w0).2.nextAddr ≤ addr ∧
            ((StatFunc F w0).1.Args (StatFunc F w0).2).1.pointers[K]? =
              some (some addr) ∧
            ((StatFunc F w0).1.Args (StatFunc F w0).2).2.heap addr =
              some (F.ins[K]).zero) ∧
      (F.ins[K].kind = .kInterface →
        ((StatFunc F w0).1.Args (StatFunc F w0).2).1.values[K]? =
            some (F.ins[K]).zero ∧
          ((StatFunc F w0).1.Args (StatFunc F w0).2).1.pointers[K]? = some none ∧
          ((StatFunc F w0).1.Args
              ((StatFunc F w0).1.Args (StatFunc F w0).2).2).1.values[K]? =
            ((StatFunc F w0).1.Args (StatFunc F w0).2).1.values[K]? ∧
          ((StatFunc F w0).1.Args
              ((StatFunc F w0).1.Args (StatFunc F w0).2).2).1.pointers[K]? =
            ((StatFunc F w0).1.Args (StatFunc F w0).2).1.pointers[K]?) := by
  have hc1 : PoolClean (StatFunc F w0).2 :=
    poolClean_of_pool_eq (newFunc_world F w0).1 hc
  have hrd : (StatFunc F w0).2.readSlice (StatFunc F w0).1.InCreate =
      classifyCreate 0 F.ins ∧
      (StatFunc F w0).2.readSlice (StatFunc F w0).1.InCache =
        classifyCache 0 F.ins :=
    newFunc_reads F w0
  have hnd : (((StatFunc F w0).2.readSlice (StatFunc F w0).1.InCreate ++
      (StatFunc F w0).2.readSlice (StatFunc F w0).1.InCache).map Arg.N).Nodup := by
    rw [hrd.1, hrd.2]
    exact classify_append_nodup F.ins 0
  obtain ⟨hl1, hl2⟩ := Func.Args_lengths (StatFunc F w0).1 (StatFunc F w0).2 hc1
  refine ⟨hl1, hl2, rfl, ?_, ?_⟩
  · intro hkind
    have he : (⟨K, F.ins[K], .invalid⟩ : Arg) ∈
        (StatFunc F w0).2.readSlice (StatFunc F w0).1.InCreate := by
      rw [hrd.1]
      exact classifyCreate_pos F.ins K hK hkind
    obtain ⟨addr, ha1, ha2, ha3, ha4⟩ :=
      Func.Args_create (StatFunc F w0).1 (StatFunc F w0).2 hc1 hnd _ he hK
    exact ⟨ha2, addr, ha1, ha3, ha4⟩
  · intro hkind
    have he : (⟨K, F.ins[K], (F.ins[K]).zero⟩ : Arg) ∈
        (StatFunc F w0).2.readSlice (StatFunc F w0).1.InCache := by
      rw [hrd.2]
      exact classifyCache_pos F.ins K hK hkind
    obtain ⟨hv1, hp1⟩ :=
      Func.Args_cache (StatFunc F w0).1 (StatFunc F w0).2 hc1 hnd _ he hK
    have hc2 : PoolClean ((StatFunc F w0).1.Args (StatFunc F w0).2).2 :=
      poolClean_after_args _ _ hc1
    have harr : ((StatFunc F w0).1.Args (StatFunc F w0).2).2.arrays =
        (StatFunc F w0).2.arrays :=
      (Func.Args_world _ _).1
    have hnd2 : ((((StatFunc F w0).1.Args (StatFunc F w0).2).2.readSlice
          (StatFunc F w0).1.InCreate ++
        ((StatFunc F w0).1.Args (StatFunc F w0).2).2.readSlice
          (StatFunc F w0).1.InCache).map Arg.N).Nodup := by
      rw [readSlice_of_arrays_eq harr, readSlice_of_arrays_eq harr]
      exact hnd
    have he2 : (⟨K, F.ins[K], (F.ins[K]).zero⟩ : Arg) ∈
        ((StatFunc F w0).1.Args (StatFunc F w0).2).2.readSlice
          (StatFunc F w0).1.InCache := by
      rw [readSlice_of_arrays_eq harr]
      exact he
    obtain ⟨hv2, hp2⟩ :=
      Func.Args_cache (StatFunc F w0).1
        ((StatFunc F w0).1.Args (StatFunc F w0).2).2 hc2 hnd2 _ he2 hK
    exact ⟨hv1, hp1, hv2.trans hv1.symm, hp2.trans hp1.symm⟩

def c5F : GoFunc :=
  ⟨[⟨"string", .kString⟩, ⟨"examples.Session", .kInterface⟩], [], fun _ => some []⟩

theorem c5_args_synthesis_witness :
    ((1 : Nat) < c5F.ins.length ∧
      ((StatFunc c5F World.empty).1.Args (StatFunc c5F World.empty).2).1.values.length =
        (StatFunc c5F World.empty).1.NumIn) ∧
    (c5F.ins[1].kind = .kInterface →
        ((StatFunc c5F World.empty).1.Args (StatFunc c5F World.empty).2).1.values[1]? =
            some (c5F.ins[1]).zero ∧
          ((StatFunc c5F World.empty).1.Args
            (StatFunc c5F World.empty).2).1.pointers[1]? = some none ∧
          ((StatFunc c5F World.empty).1.Args
              ((StatFunc c5F World.empty).1.Args (StatFunc c5F World.empty).2).2).1.values[1]? =
            ((StatFunc c5F World.empty).1.Args (StatFunc c5F World.empty).2).1.values[1]? ∧
          ((StatFunc c5F World.empty).1.Args
              ((StatFunc c5F World.empty).1.Args (StatFunc c5F World.empty).2).2).1.pointers[1]? =
            ((StatFunc c5F World.empty).1.Args (StatFunc c5F World.empty).2).1.pointers[1]?) := by
  have h := c5_args_synthesis c5F World.empty
    (by intro a ha; exact absurd ha (List.not_mem_nil a)) 1 (by decide)
  exact ⟨⟨by decide, h.1⟩, h.2.2.2.2⟩

/-- C7: For every Signature built by introspection and every (duplicate-free)
set of requested types, `PruneIn` removes every occurrence of each requested
type from both the auto-create (`InCreate`) and shared-placeholder
(`InCache`) sets — what remains are exactly the entries whose type was not
requested — returns exactly the removed entries (each with its position `N`,
type `T`, and cached value `V` when it was a shared placeholder), and on the
subsequent `Args()` call of the pruned Signature the removed positions are
not populated: no created value, no cached value, no address. -/
theorem c7_prune_in (F : GoFunc) (w0 : World) (ts : List Ty)
    (hc : PoolClean w0) (hts : ts.Nodup) :
    ((StatFunc F w0).1.PruneIn ts (StatFunc F w0).2).2.2 =
        ts.flatMap
            (fun T => (classifyCache 0 F.ins).filter fun a => decide (a.T = T)) ++
          ts.flatMap
            (fun T => (classifyCreate 0 F.ins).filter fun a => decide (a.T = T)) ∧
      ((StatFunc F w0).1.PruneIn ts (StatFunc F w0).2).2.1.readSlice
          ((StatFunc F w0).1.PruneIn ts (StatFunc F w0).2).1.InCache =
        (classifyCache 0 F.ins).filter (fun a => !decide (a.T ∈ ts)) ∧
      ((StatFunc F w0).1.PruneIn ts (StatFunc F w0).2).2.1.readSlice
          ((StatFunc F w0).1.PruneIn ts (StatFunc F w0).2).1.InCreate =
        (classifyCreate 0 F.ins).filter (fun a => !decide (a.T ∈ ts)) ∧
      (∀ e ∈ ((StatFunc F w0).1.PruneIn ts (StatFunc F w0).2).2.1.readSlice
          ((StatFunc F w0).1.PruneIn ts (StatFunc F w0).2).1.InCache, e.T ∉ ts) ∧
      (∀ e ∈ ((StatFunc F w0).1.PruneIn ts (StatFunc F w0).2).2.1.readSlice
          ((StatFunc F w0).1.PruneIn ts (StatFunc F w0).2).1.InCreate, e.T ∉ ts) ∧
      ∀ e ∈ ((StatFunc F w0).1.PruneIn ts (StatFunc F w0).2).2.2,
        (((StatFunc F w0).1.PruneIn ts (StatFunc F w0).2).1.Args
            ((StatFunc F w0).1.PruneIn ts (StatFunc F w0).2).2.1).1.values[e.N]? =
          some Val.invalid ∧
        (((StatFunc F w0).1.PruneIn ts (StatFunc F w0).2).1.Args
            ((StatFunc F w0).1.PruneIn ts (StatFunc F w0).2).2.1).1.pointers[e.N]? =
          some none := by
  have hrd : (StatFunc F w0).2.readSlice (StatFunc F w0).1.InCreate =
      classifyCreate 0 F.ins ∧
      (StatFunc F w0).2.readSlice (StatFunc F w0).1.InCache =
        classifyCache 0 F.ins :=
    newFunc_reads F w0
  have harrne : (StatFunc F w0).1.InCache.arr ≠ (StatFunc F w0).1.InCreate.arr :=
    (newFunc_world F w0).2.2.2.2
  obtain ⟨p1, p2, p3, p4, p5, p6, p7, p8⟩ :=
    Func.PruneIn_spec (StatFunc F w0).1 ts (StatFunc F w0).2 hts harrne
  rw [hrd.1, hrd.2] at p1
  rw [hrd.2] at p2
  rw [hrd.1] at p3
  have hndAll := classify_append_nodup F.ins 0
  have hmemOrig : ∀ e, e ∈ classifyCreate 0 F.ins ∨ e ∈ classifyCache 0 F.ins →
      e.N < F.ins.length := by
    intro e he
    rcases he with he | he
    · obtain ⟨i, hi, heq, _⟩ := (classifyCreate_mem F.ins 0 e).mp he
      rw [heq]
      show 0 + i < _
      omega
    · obtain ⟨i, hi, heq, _⟩ := (classifyCache_mem F.ins 0 e).mp he
      rw [heq]
      show 0 + i < _
      omega
  refine ⟨p1, p2, p3, ?_, ?_, ?_⟩
  · intro e he
    rw [p2] at he
    have := (List.mem_filter.mp he).2
    simpa using this
  · intro e he
    rw [p3] at he
    have := (List.mem_filter.mp he).2
    simpa using this
  · intro e he
    rw [p1] at he
    -- the removed entry comes from one of the two original classification
    -- lists and its type was requested
    have horig : (e ∈ classifyCreate 0 F.ins ∨ e ∈ classifyCache 0 F.ins) ∧
        e.T ∈ ts := by
      rcases List.mem_append.mp he with h | h
      · obtain ⟨T, hT, hmem⟩ := List.mem_flatMap.mp h
        obtain ⟨hm, hf⟩ := List.mem_filter.mp hmem
        refine ⟨Or.inr hm, ?_⟩
        have : e.T = T := by simpa using hf
        rw [this]
        exact hT
      · obtain ⟨T, hT, hmem⟩ := List.mem_flatMap.mp h
        obtain ⟨hm, hf⟩ := List.mem_filter.mp hmem
        refine ⟨Or.inl hm, ?_⟩
        have : e.T = T := by simpa using hf
        rw [this]
        exact hT
    have hbound : e.N < ((StatFunc F w0).1.PruneIn ts (StatFunc F w0).2).1.NumIn := by
      show e.N < (StatFunc F w0).1.NumIn
      exact hmemOrig e horig.1
    have hcPr : PoolClean ((StatFunc F w0).1.PruneIn ts (StatFunc F w0).2).2.1 :=
      poolClean_of_pool_eq p5 (poolClean_of_pool_eq (newFunc_world F w0).1 hc)
    refine Func.Args_unpopulated _ _ hcPr e.N hbound ?_
    intro e' he'
    intro hNe
    -- a remaining entry with the same position would duplicate a position
    -- in the original create ++ cache classification, which has no
    -- duplicate positions
    have horig' : (e' ∈ classifyCreate 0 F.ins ∨ e' ∈ classifyCache 0 F.ins) ∧
        e'.T ∉ ts := by
      rcases List.mem_append.mp he' with h | h
      · rw [p3] at h
        obtain ⟨hm, hf⟩ := List.mem_filter.mp h
        exact ⟨Or.inl hm, by simpa using hf⟩
      · rw [p2] at h
        obtain ⟨hm, hf⟩ := List.mem_filter.mp h
        exact ⟨Or.inr hm, by simpa using hf⟩
    have happ : e ∈ classifyCreate 0 F.ins ++ classifyCache 0 F.ins :=
      List.mem_append.mpr horig.1
    have happ' : e' ∈ classifyCreate 0 F.ins ++ classifyCache 0 F.ins :=
      List.mem_append.mpr horig'.1
    have : e' = e := List.inj_on_of_nodup_map hndAll happ' happ hNe
    rw [this] at horig'
    exact horig'.2 horig.2

def c7F : GoFunc :=
  ⟨[⟨"string", .kString⟩, ⟨"examples.Session", .kInterface⟩, ⟨"int", .kInt⟩],
   [], fun _ => some []⟩

def c7Ts : List Ty := [⟨"string", .kString⟩, ⟨"examples.Session", .kInterface⟩]

theorem c7_prune_in_witness :
    ((StatFunc c7F World.empty).1.PruneIn c7Ts (StatFunc c7F World.empty).2).2.2 =
        c7Ts.flatMap
            (fun T => (classifyCache 0 c7F.ins).filter fun a => decide (a.T = T)) ++
          c7Ts.flatMap
            (fun T => (classifyCreate 0 c7F.ins).filter fun a => decide (a.T = T)) ∧
      ∀ e ∈ ((StatFunc c7F World.empty).1.PruneIn c7Ts (StatFunc c7F World.empty).2).2.2,
        (((StatFunc c7F World.empty).1.PruneIn c7Ts (StatFunc c7F World.empty).2).1.Args
            ((StatFunc c7F World.empty).1.PruneIn c7Ts
              (StatFunc c7F World.empty).2).2.1).1.values[e.N]? =
          some Val.invalid ∧
        (((StatFunc c7F World.empty).1.PruneIn c7Ts (StatFunc c7F World.empty).2).1.Args
            ((StatFunc c7F World.empty).1.PruneIn c7Ts
              (StatFunc c7F World.empty).2).2.1).1.pointers[e.N]? =
          some none := by
  have h := c7_prune_in c7F World.empty c7Ts
    (by intro a ha; exact absurd ha (List.not_mem_nil a)) (by decide)
  exact ⟨h.1, h.2.2.2.2.2⟩

/-- C8: `Stat(value)` returns an absent result exactly when the input value is
absent/nil; for every non-absent input it returns an `Instance` whose
Receiver Cell holds that input value (both the `interface{}` receiver and its
`reflect.Value`). -/
theorem c8_stat (mt : Ty → List GoMethod) (w : World) (V : Option Boxed) :
    ((typeInfoCacheStat mt V w).1 = none ↔ V = none) ∧
      ∀ b, V = some b →
        ∃ r, (typeInfoCacheStat mt V w).1 = some r ∧
          ((typeInfoCacheStat mt V w).2.instances.getD r default).receiver = b ∧
          ((typeInfoCacheStat mt V w).2.instances.getD r default).receiverValue =
            b.v := by
  cases V with
  | none =>
      exact ⟨by simp [typeInfoCacheStat], fun b h => by cases h⟩
  | some b =>
      refine ⟨by simp [typeInfoCacheStat], ?_⟩
      rintro b' hb
      rcases Option.some.inj hb with rfl
      obtain ⟨s1, s2, _, _, _, _, _⟩ := statType_spec ⟨b.ty, mt b.ty⟩ w
      obtain ⟨k1, k2, _, _, _, _, _⟩ :=
        instanceCopy_spec (statType ⟨b.ty, mt b.ty⟩ w).1 (statType ⟨b.ty, mt b.ty⟩ w).2
      -- the copied instance sits at the end of the instance heap and keeps
      -- the template's captured receiver type, which is the runtime type of
      -- the statted value, so the rebind inside Stat cannot panic
      have hTplGet : (statType ⟨b.ty, mt b.ty⟩ w).2.instances.getD
          (statType ⟨b.ty, mt b.ty⟩ w).1 default =
          { Methods := (buildMethods w.instances.length
              (⟨b.ty, mt b.ty⟩ : GoType).methods w).1
            receiver := ⟨b.ty, Ty.zero b.ty⟩
            receiverType := b.ty
            receiverValue := Ty.zero b.ty } := by
        rw [s2, s1]
        exact getD_concat_length _ _
      have hCpGet : (instanceCopy (statType ⟨b.ty, mt b.ty⟩ w).1
            (statType ⟨b.ty, mt b.ty⟩ w).2).2.instances.getD
          (instanceCopy (statType ⟨b.ty, mt b.ty⟩ w).1
            (statType ⟨b.ty, mt b.ty⟩ w).2).1 default =
          { (statType ⟨b.ty, mt b.ty⟩ w).2.instances.getD
              (statType ⟨b.ty, mt b.ty⟩ w).1 default with
              Methods := ((statType ⟨b.ty, mt b.ty⟩ w).2.instances.getD
                (statType ⟨b.ty, mt b.ty⟩ w).1 default).Methods.map
                  fun m => { m with
                    instRef := (statType ⟨b.ty, mt b.ty⟩ w).2.instances.length } } := by
        rw [k2, k1]
        exact getD_concat_length _ _
      have hty : b.ty = ((instanceCopy (statType ⟨b.ty, mt b.ty⟩ w).1
            (statType ⟨b.ty, mt b.ty⟩ w).2).2.instances.getD
          (instanceCopy (statType ⟨b.ty, mt b.ty⟩ w).1
            (statType ⟨b.ty, mt b.ty⟩ w).2).1 default).receiverType := by
        rw [hCpGet]
        show b.ty = ((statType ⟨b.ty, mt b.ty⟩ w).2.instances.getD
          (statType ⟨b.ty, mt b.ty⟩ w).1 default).receiverType
        rw [hTplGet]
      have hreb := instanceRebind_match
        (instanceCopy (statType ⟨b.ty, mt b.ty⟩ w).1 (statType ⟨b.ty, mt b.ty⟩ w).2).1
        b
        (instanceCopy (statType ⟨b.ty, mt b.ty⟩ w).1 (statType ⟨b.ty, mt b.ty⟩ w).2).2
        hty
      refine ⟨(instanceCopy (statType ⟨b.ty, mt b.ty⟩ w).1
          (statType ⟨b.ty, mt b.ty⟩ w).2).1, rfl, ?_, ?_⟩
      · show (((instanceRebind _ b _).1).instances.getD _ default).receiver = b
        rw [hreb]
        dsimp only
        rw [getD_set_self _ _ _ ?hlt]
        case hlt =>
          rw [k2, k1, List.length_append]
          simp
      · show (((instanceRebind _ b _).1).instances.getD _ default).receiverValue = b.v
        rw [hreb]
        dsimp only
        rw [getD_set_self _ _ _ ?hlt2]
        case hlt2 =>
          rw [k2, k1, List.length_append]
          simp

def c8B : Boxed := ⟨⟨"string", .kString⟩, .str "hi"⟩

theorem c8_stat_witness :
    ((typeInfoCacheStat (fun _ => []) (some c8B) World.empty).1 = none ↔
        (some c8B : Option Boxed) = none) ∧
      ∃ r, (typeInfoCacheStat (fun _ => []) (some c8B) World.empty).1 = some r ∧
        ((typeInfoCacheStat (fun _ => []) (some c8B)
            World.empty).2.instances.getD r default).receiver = c8B ∧
        ((typeInfoCacheStat (fun _ => []) (some c8B)
            World.empty).2.instances.getD r default).receiverValue = c8B.v := by
  have h := c8_stat (fun _ => []) World.empty (some c8B)
  exact ⟨h.1, h.2 c8B rfl⟩

/-- C9: For every Method descriptor built by the cache's `StatType` on a
non-interface type whose methods (as `reflect` reports them) carry the
receiver as parameter 0, the auto-create (`InCreate`) position set and the
shared-placeholder (`InCache`) position set are disjoint, and their union is
exactly the set of all non-receiver parameter positions `1 .. NumIn-1`;
position 0 (the receiver) belongs to neither set. -/
theorem c9_partition (gt : GoType) (w0 : World)
    (hki : gt.ty.kind ≠ .kInterface)
    (hrecv : ∀ gm ∈ gt.methods, gm.fn.ins[0]? = some gt.ty) :
    ∀ md ∈ ((statType gt w0).2.instances.getD (statType gt w0).1 default).Methods,
      (∀ n,
        (n ∈ ((statType gt w0).2.readSlice md.func.InCreate).map Arg.N ∨
            n ∈ ((statType gt w0).2.readSlice md.func.InCache).map Arg.N) ↔
          (1 ≤ n ∧ n < md.func.NumIn)) ∧
      (∀ n, n ∈ ((statType gt w0).2.readSlice md.func.InCreate).map Arg.N →
          n ∉ ((statType gt w0).2.readSlice md.func.InCache).map Arg.N) ∧
      0 ∉ ((statType gt w0).2.readSlice md.func.InCreate).map Arg.N ∧
      0 ∉ ((statType gt w0).2.readSlice md.func.InCache).map Arg.N := by
  intro md hmd
  obtain ⟨s1, s2, s3, _, _, _, _⟩ := statType_spec gt w0
  rw [s2, s1] at hmd
  rw [getD_concat_length] at hmd
  dsimp only at hmd
  obtain ⟨j, hj2, hjmd⟩ := List.getElem_of_mem hmd
  obtain ⟨bm1, _, _, _, _, _, bm7⟩ := buildMethods_spec w0.instances.length gt.methods w0
  have hj : j < gt.methods.length := by rw [← bm1]; exact hj2
  obtain ⟨g1, g2, g3, g4, g5, g6, g7, g8, g9, g10, g11, g12⟩ := bm7 j hj hj2
  rw [hjmd] at g4 g8 g9
  -- reads in the statType world agree with reads in the buildMethods world
  have hstat : ∀ sl : ArgSlice,
      (statType gt w0).2.readSlice sl =
        (buildMethods w0.instances.length gt.methods w0).2.readSlice sl :=
    fun sl => readSlice_of_arrays_eq s3 sl
  -- the receiver is parameter 0, of non-interface kind, so the stripped
  -- create list and the cache list both start at position 1
  have hins0 : gt.methods[j].fn.ins[0]? = some gt.ty :=
    hrecv gt.methods[j] (List.getElem_mem hj)
  obtain ⟨tl, htl⟩ : ∃ tl, gt.methods[j].fn.ins = gt.ty :: tl := by
    rcases hins : gt.methods[j].fn.ins with _ | ⟨h0, tl⟩
    · rw [hins] at hins0
      exact absurd hins0 (by simp)
    · rw [hins] at hins0
      rw [List.getElem?_cons_zero] at hins0
      exact ⟨tl, by rw [Option.some.inj hins0]⟩
  rw [htl] at g4 g8 g9
  have hcr : classifyCreate 0 (gt.ty :: tl) =
      (⟨0, gt.ty, .invalid⟩ : Arg) :: classifyCreate 1 tl := by
    rw [classifyCreate, if_neg hki]
    rfl
  rw [hcr] at g8
  have g8' : (buildMethods w0.instances.length gt.methods w0).2.readSlice
      md.func.InCreate = classifyCreate 1 tl := by
    rw [g8]
    rfl
  have g9' : (buildMethods w0.instances.length gt.methods w0).2.readSlice
      md.func.InCache = classifyCache 1 tl := by
    rw [g9, classifyCache, if_neg hki]
    rfl
  have hNumIn : md.func.NumIn = tl.length + 1 := by
    rw [g4]
    rfl
  have hmemCr : ∀ n, n ∈ (classifyCreate 1 tl).map Arg.N ↔
      ∃ i, ∃ h : i < tl.length, n = 1 + i ∧ tl[i].kind ≠ .kInterface := by
    intro n
    constructor
    · intro hn
      obtain ⟨e, he, hne⟩ := List.mem_map.mp hn
      obtain ⟨i, hi, heq, hk⟩ := (classifyCreate_mem tl 1 e).mp he
      exact ⟨i, hi, by rw [← hne, heq], hk⟩
    · rintro ⟨i, hi, rfl, hk⟩
      exact List.mem_map.mpr ⟨⟨1 + i, tl[i], .invalid⟩,
        (classifyCreate_mem tl 1 _).mpr ⟨i, hi, rfl, hk⟩, rfl⟩
  have hmemCa : ∀ n, n ∈ (classifyCache 1 tl).map Arg.N ↔
      ∃ i, ∃ h : i < tl.length, n = 1 + i ∧ tl[i].kind = .kInterface := by
    intro n
    constructor
    · intro hn
      obtain ⟨e, he, hne⟩ := List.mem_map.mp hn
      obtain ⟨i, hi, heq, hk⟩ := (classifyCache_mem tl 1 e).mp he
      exact ⟨i, hi, by rw [← hne, heq], hk⟩
    · rintro ⟨i, hi, rfl, hk⟩
      exact List.mem_map.mpr ⟨⟨1 + i, tl[i], (tl[i]).zero⟩,
        (classifyCache_mem tl 1 _).mpr ⟨i, hi, rfl, hk⟩, rfl⟩
  rw [hstat md.func.InCreate, hstat md.func.InCache, g8', g9']
  refine ⟨?_, ?_, ?_, ?_⟩
  · intro n
    rw [hmemCr, hmemCa, hNumIn]
    constructor
    · rintro (⟨i, hi, rfl, _⟩ | ⟨i, hi, rfl, _⟩) <;> omega
    · rintro ⟨hn1, hn2⟩
      by_cases hk : tl[n - 1].kind = .kInterface
      · exact Or.inr ⟨n - 1, by omega, by omega, hk⟩
      · exact Or.inl ⟨n - 1, by omega, by omega, hk⟩
  · intro n hn1 hn2
    obtain ⟨i1, hi1, he1, hk1⟩ := (hmemCr n).mp hn1
    obtain ⟨i2, hi2, he2, hk2⟩ := (hmemCa n).mp hn2
    have heq12 : i1 = i2 := by omega
    subst heq12
    exact hk1 hk2
  · intro h0
    obtain ⟨i, _, he, _⟩ := (hmemCr 0).mp h0
    omega
  · intro h0
    obtain ⟨i, _, he, _⟩ := (hmemCa 0).mp h0
    omega

def c9GT : GoType :=
  ⟨⟨"P", .kPtr⟩,
   [⟨"M", ⟨[⟨"P", .kPtr⟩, ⟨"string", .kString⟩, ⟨"examples.Session", .kInterface⟩],
      [], fun _ => some []⟩⟩]⟩

theorem c9_partition_witness :
    ((1 ∈ ((statType c9GT World.empty).2.readSlice
          (((statType c9GT World.empty).2.instances.getD (statType c9GT World.empty).1
            default).Methods.getD 0 default).func.InCreate).map Arg.N ∨
        1 ∈ ((statType c9GT World.empty).2.readSlice
          (((statType c9GT World.empty).2.instances.getD (statType c9GT World.empty).1
            default).Methods.getD 0 default).func.InCache).map Arg.N) ↔
      (1 ≤ 1 ∧ 1 < (((statType c9GT World.empty).2.instances.getD
        (statType c9GT World.empty).1 default).Methods.getD 0
          default).func.NumIn)) ∧
    0 ∉ ((statType c9GT World.empty).2.readSlice
        (((statType c9GT World.empty).2.instances.getD (statType c9GT World.empty).1
          default).Methods.getD 0 default).func.InCreate).map Arg.N ∧
    0 ∉ ((statType c9GT World.empty).2.readSlice
        (((statType c9GT World.empty).2.instances.getD (statType c9GT World.empty).1
          default).Methods.getD 0 default).func.InCache).map Arg.N := by
  have hmem : (((statType c9GT World.empty).2.instances.getD
      (statType c9GT World.empty).1 default).Methods.getD 0 default) ∈
      ((statType c9GT World.empty).2.instances.getD
        (statType c9GT World.empty).1 default).Methods :=
    List.mem_cons_self _ _
  have h := c9_partition c9GT World.empty (by decide) (by decide) _ hmem
  exact ⟨h.1 1, h.2.2.1, h.2.2.2⟩

/-- C2: For every Instance and every value `v` whose runtime type equals the
Instance's captured receiver type, after `Rebind(v)` every Method of that
Instance (including Method values extracted before the rebind — the
quantifier ranges over the method list as it was before the call) yields, on
its next `Args()` call, a container whose position 0 holds `v` with a null
address; no other field of any Method's Signature changes (the method list,
the backing arrays, and all other world state are untouched — only the
receiver binding is replaced). -/
theorem c2_rebind (w : World) (r : Nat) (b : Boxed)
    (hc : PoolClean w) (hr : r < w.instances.length)
    (hm : ∀ m ∈ (w.instances.getD r default).Methods,
      m.instRef = r ∧ 1 ≤ m.func.NumIn)
    (hty : b.ty = (w.instances.getD r default).receiverType) :
    (instanceRebind r b w).2 = false ∧
      (instanceRebind r b w).1.arrays = w.arrays ∧
      (instanceRebind r b w).1.narrays = w.narrays ∧
      (instanceRebind r b w).1.pool = w.pool ∧
      (instanceRebind r b w).1.heap = w.heap ∧
      (instanceRebind r b w).1.nextAddr = w.nextAddr ∧
      ((instanceRebind r b w).1.instances.getD r default).Methods =
        (w.instances.getD r default).Methods ∧
      ((instanceRebind r b w).1.instances.getD r default).receiver = b ∧
      ∀ m ∈ (w.instances.getD r default).Methods,
        (m.Args (instanceRebind r b w).1).1.values[0]? = some b.v ∧
          (m.Args (instanceRebind r b w).1).1.pointers[0]? = some none := by
  have hreb := instanceRebind_match r b w hty
  have hgd : ((instanceRebind r b w).1.instances.getD r default) =
      { w.instances.getD r default with receiver := b, receiverValue := b.v } := by
    rw [hreb]
    exact getD_set_self _ _ _ hr
  refine ⟨by rw [hreb], by rw [hreb], by rw [hreb], by rw [hreb], by rw [hreb],
    by rw [hreb], by rw [hgd], by rw [hgd], ?_⟩
  intro m hmem
  obtain ⟨hm1, hm2⟩ := hm m hmem
  have hc' : PoolClean (instanceRebind r b w).1 :=
    poolClean_of_pool_eq (by rw [hreb]) hc
  obtain ⟨hl1, hl2⟩ := Func.Args_lengths m.func (instanceRebind r b w).1 hc'
  have hinst : (m.func.Args (instanceRebind r b w).1).2.instances =
      (instanceRebind r b w).1.instances :=
    (Func.Args_world _ _).2.2.1
  have hrecvVal : ((m.func.Args (instanceRebind r b w).1).2.instances.getD
      m.instRef default).receiverValue = b.v := by
    rw [hinst, hm1, hgd]
  constructor
  · show ((m.func.Args (instanceRebind r b w).1).1.values.set 0
        ((m.func.Args (instanceRebind r b w).1).2.instances.getD
          m.instRef default).receiverValue)[0]? = some b.v
    rw [hrecvVal]
    exact List.getElem?_set_self (by rw [hl1]; omega)
  · show ((m.func.Args (instanceRebind r b w).1).1.pointers.set 0 none)[0]? =
      some none
    exact List.getElem?_set_self (by rw [hl2]; omega)

def c2T : Ty := ⟨"Person", .kPtr⟩

def c2Func : Func :=
  ⟨fun _ => some [], 1, [Kind.kPtr], [c2T], ⟨0, 0, 0⟩, ⟨0, 0, 0⟩, 0, []⟩

def c2W : World :=
  { World.empty with
      instances := [⟨[⟨"M", c2Func, 0⟩], ⟨c2T, .zeroOf c2T⟩, c2T, .zeroOf c2T⟩] }

def c2B : Boxed := ⟨c2T, .errVal "bob"⟩

theorem c2_rebind_witness :
    (instanceRebind 0 c2B c2W).2 = false ∧
      (((c2W.instances.getD 0 default).Methods.getD 0 default).Args
          (instanceRebind 0 c2B c2W).1).1.values[0]? = some c2B.v ∧
      (((c2W.instances.getD 0 default).Methods.getD 0 default).Args
          (instanceRebind 0 c2B c2W).1).1.pointers[0]? = some none := by
  have hmem : ((c2W.instances.getD 0 default).Methods.getD 0 default) ∈
      (c2W.instances.getD 0 default).Methods := List.mem_cons_self _ _
  have h := c2_rebind c2W 0 c2B
    (by intro a ha; exact absurd ha (List.not_mem_nil a))
    (by decide)
    (by
      intro m hmem2
      have hlist : (c2W.instances.getD 0 default).Methods = [⟨"M", c2Func, 0⟩] := rfl
      rw [hlist, List.mem_singleton] at hmem2
      rw [hmem2]
      exact ⟨rfl, by decide⟩)
    rfl
  exact ⟨h.1, (h.2.2.2.2.2.2.2.2 _ hmem).1, (h.2.2.2.2.2.2.2.2 _ hmem).2⟩

/-- C3: For every Instance and every value `v` whose runtime type differs
from the Instance's originally captured receiver type, `Rebind(v)` fails
fatally (panics, flag `true`) and the Instance's stored receiver value and
receiver type — indeed the whole world — are exactly what they were before
the call: no partial update happens on the failure path. -/
theorem c3_rebind_mismatch (w : World) (r : Nat) (b : Boxed)
    (hty : b.ty ≠ (w.instances.getD r default).receiverType) :
    (instanceRebind r b w).2 = true ∧
      (instanceRebind r b w).1 = w ∧
      ((instanceRebind r b w).1.instances.getD r default).receiver =
        (w.instances.getD r default).receiver ∧
      ((instanceRebind r b w).1.instances.getD r default).receiverValue =
        (w.instances.getD r default).receiverValue ∧
      ((instanceRebind r b w).1.instances.getD r default).receiverType =
        (w.instances.getD r default).receiverType := by
  have h := instanceRebind_mismatch r b w hty
  rw [h]
  exact ⟨rfl, rfl, rfl, rfl, rfl⟩

def c3T : Ty := ⟨"Person", .kPtr⟩

def c3W : World :=
  { World.empty with
      instances := [⟨[], ⟨c3T, .zeroOf c3T⟩, c3T, .zeroOf c3T⟩] }

def c3B : Boxed := ⟨⟨"int", .kInt⟩, .int 5⟩

theorem c3_rebind_mismatch_witness :
    (instanceRebind 0 c3B c3W).2 = true ∧ (instanceRebind 0 c3B c3W).1 = c3W := by
  have h := c3_rebind_mismatch c3W 0 c3B (by decide)
  exact ⟨h.1, h.2.1⟩

def c1T : Ty := ⟨"P", .kPtr⟩

def c1GT : GoType :=
  ⟨c1T, [⟨"M", ⟨[c1T, ⟨"string", .kString⟩, ⟨"int", .kInt⟩], [], fun _ => some []⟩⟩]⟩

/-- `Stat(P{})`: build the cached template for `P`, `Copy()` it, `Rebind` the
copy — the Instance handed to the user. -/
def c1Tpl : Nat × World := statType c1GT World.empty

def c1A : Nat × World := instanceCopy c1Tpl.1 c1Tpl.2

def c1AW : World := (instanceRebind c1A.1 ⟨c1T, .zeroOf c1T⟩ c1A.2).1

/-- The user-held Instance's method `M`. -/
def c1Orig : Method := (c1AW.instances.getD c1A.1 default).Methods.getD 0 default

/-- `a.Copy()`: the copy whose method will be pruned. -/
def c1Cp : Nat × World := instanceCopy c1A.1 c1AW

def c1CpM : Method := (c1Cp.2.instances.getD c1Cp.1 default).Methods.getD 0 default

/-- `cpm.PruneIn(reflect.TypeOf(""))` on the copy's method. -/
def c1Pruned : Func × World × List Arg :=
  c1CpM.func.PruneIn [⟨"string", .kString⟩] c1Cp.2

/-- The cached template's method `M`, read in a given world. -/
def c1TplM (w : World) : Method :=
  (w.instances.getD c1Tpl.1 default).Methods.getD 0 default

/-- C1 (code evaluated at the failing input): for the type
`P` with method `M(string, int)`, pruning `string` from a `Copy()`'s method
**does** change the `Args()`-behavior of the same-named method on the
original Instance and on the cached template.  Before the prune, the
original's `Args()` populates position 1 with a fresh `""` plus its address;
after pruning the copy, the same original method's `Args()` leaves position 1
unpopulated (invalid value, nil address), and so does the cached template's
method.  The in-place delete of `PruneIn` shifted the shared backing array
that the shallow `*fnew = *f` copy in `Instance.Copy` still aliases. -/
theorem c1_copy_prune_not_isolated :
    (c1Orig.Args c1AW).1.values = [.zeroOf c1T, .str "", .int 0] ∧
      (c1Orig.Args c1AW).1.pointers[1]? = some (some 0) ∧
      c1Pruned.2.2 = [⟨1, ⟨"string", .kString⟩, .invalid⟩] ∧
      (c1Orig.Args c1Pruned.2.1).1.values = [.zeroOf c1T, .invalid, .int 0] ∧
      (c1Orig.Args c1Pruned.2.1).1.pointers[1]? = some none ∧
      (c1TplM c1Pruned.2.1 |>.Args c1Pruned.2.1).1.values =
        [.zeroOf c1T, .invalid, .int 0] := by
  refine ⟨by decide, by decide, by decide, by decide, by decide, by decide⟩
